import Mathlib

/-!
# dcx: binary resolution and tool installation

A shallow embedding of the Go sources under `cmd/dcx` (`platform.go`, `binary.go`,
`tools.go`, and the dot-path access of `config.go`) together with theorems about the path
resolver, the binary locator, the archive extractor and the tool installer.

Conventions of the embedding

* Go `string` is `String`; the helpers of package `strings` and `path/filepath`
  (Unix flavour, separator `/`) are re-implemented on the character list.
* The file system is a map from (cleaned) path to the node that `os.Stat` reports
  there.  Distinct paths name distinct files: hard links and symlink aliases are not
  represented.
* The process is taken to be the unprivileged owner of the files it touches, so the
  owner permission bits decide whether a read or write is allowed.  Directories and
  special files (devices, pipes, sockets) cannot be opened for writing.
* Everything the program cannot decide by itself (environment variables, the running
  executable, the HTTP server, the YAML / gzip / tar / zip decoders) is a field of `Env`.
* A Go `error` result is `Option Error` (`none` is `nil`); a `(T, error)` result is
  `Except Error T`.
* Output written to stdout / stderr is not modelled.
-/

namespace Dcx

/-! ## Package `strings` -/

/-- Go `strings.HasPrefix`. -/
def HasPrefix (s pfx : String) : Bool :=
  pfx.data.isPrefixOf s.data

/-- Go `strings.HasSuffix`. -/
def HasSuffix (s sfx : String) : Bool :=
  sfx.data.reverse.isPrefixOf s.data.reverse

/-- Left-to-right scan of `strings.ReplaceAll` for a non-empty pattern: the counter is
the number of characters of the current match that are still to be skipped. -/
def replaceAux (old new : List Char) : Nat → List Char → List Char
  | _, [] => []
  | k + 1, _ :: cs => replaceAux old new k cs
  | 0, c :: cs =>
    if old.isPrefixOf (c :: cs) then new ++ replaceAux old new (old.length - 1) cs
    else c :: replaceAux old new 0 cs

/-- Go `strings.ReplaceAll(s, old, new)` for a non-empty `old` (the only use in the
program has the version placeholder for `old`). -/
def ReplaceAll (s old new : String) : String :=
  String.mk (replaceAux old.data new.data 0 s.data)

/-! ## Package `path/filepath` (Unix) -/

/-- Split a path at every `/`. -/
def splitSlash : List Char → List (List Char)
  | [] => [[]]
  | c :: cs =>
    if c = '/' then [] :: splitSlash cs
    else
      match splitSlash cs with
      | [] => [[c]]
      | x :: xs => (c :: x) :: xs

/-- One step of `filepath.Clean` on the stack of kept elements (top of the stack first):
empty elements and `.` are dropped, `..` removes the element before it, is dropped at the
root, and is kept in front of a relative path. -/
def cleanStep (rooted : Bool) (stack : List (List Char)) (c : List Char) : List (List Char) :=
  if c = [] ∨ c = ['.'] then stack
  else if c = ['.', '.'] then
    match stack with
    | [] => if rooted then [] else [c]
    | top :: rest => if top = ['.', '.'] then c :: stack else rest
  else c :: stack

/-- Join path elements with `/`. -/
def joinSlash : List (List Char) → List Char
  | [] => []
  | [x] => x
  | x :: y :: rest => x ++ '/' :: joinSlash (y :: rest)

/-- Go `filepath.Clean` on a character list. -/
def cleanChars (path : List Char) : List Char :=
  let rooted := path.head? = some '/'
  let kept := ((splitSlash path).foldl (cleanStep rooted) []).reverse
  if rooted then '/' :: joinSlash kept
  else if kept = [] then ['.'] else joinSlash kept

/-- Go `filepath.Clean`. -/
def Clean (path : String) : String :=
  String.mk (cleanChars path.data)

/-- Go `strings.Join(elems, "/")`. -/
def joinElems : List String → List Char
  | [] => []
  | [x] => x.data
  | x :: y :: rest => x.data ++ '/' :: joinElems (y :: rest)

/-- Go `filepath.Join`: the elements from the first non-empty one on are joined with `/`
and the result is cleaned; with no non-empty element the result is the empty string. -/
def Join (elems : List String) : String :=
  match elems.dropWhile (fun e => e = "") with
  | [] => ""
  | rest => String.mk (cleanChars (joinElems rest))

/-- Go `filepath.Base`: the last element of the path, after removing trailing slashes. -/
def Base (path : String) : String :=
  if path = "" then "."
  else
    let stripped := (path.data.reverse.dropWhile (fun c => c = '/')).reverse
    let last := (stripped.reverse.takeWhile (fun c => c ≠ '/')).reverse
    if last = [] then "/" else String.mk last

/-- Go `filepath.Dir`: everything up to the last slash, cleaned. -/
def Dir (path : String) : String :=
  String.mk (cleanChars (path.data.reverse.dropWhile (fun c => c ≠ '/')).reverse)

/-! ## Files, archives and the process environment -/

/-- File contents. -/
abbrev Bytes := List Nat

/-- The type bits of a Go `fs.FileMode`. -/
inductive FileType
  | regular
  | dir
  | symlink
  | other
  deriving DecidableEq, Repr

/-- What `os.Stat` reports for an existing path, plus the file content. -/
structure Node where
  type : FileType
  perm : Nat
  content : Bytes
  deriving DecidableEq, Repr

/-- The file system: `none` where `os.Stat` fails. -/
abbrev FS := String → Option Node

/-- Go errors, as far as the program distinguishes them. -/
inductive Error
  | errorf (msg : String)
  | wrapped (msg : String) (cause : Error)
  | pathError (op path : String)
  | httpError (url : String)
  | readError
  | formatError
  deriving DecidableEq, Repr

/-- Source: `ToolConfig` of `tools.go`. -/
structure ToolConfig where
  Version : String
  Required : Bool
  Description : String
  URLs : List (String × String)
  Binary : String
  Extract : String
  deriving DecidableEq, Repr

/-- Source: the `Settings` field of `ToolsConfig` in `tools.go`. -/
structure Settings where
  AutoDownload : Bool
  VerifyChecksum : Bool
  CacheDir : String
  deriving DecidableEq, Repr

/-- Source: `ToolsConfig` of `tools.go`; Go maps are association lists read with
`List.lookup`. -/
structure ToolsConfig where
  Settings : Settings
  Tools : List (String × ToolConfig)
  deriving DecidableEq, Repr

/-- A tar member as `tar.Reader` yields it: the header fields the program reads, the bytes
`io.Copy` obtains from the member, and whether that copy ends in a read error. -/
structure TarEntry where
  Name : String
  Typeflag : Char
  data : Bytes
  readErr : Bool
  deriving DecidableEq, Repr

/-- A gzip-compressed tar stream after `gzip.NewReader` succeeded: the members that
`tr.Next()` yields, then either `io.EOF` or (`corrupt`) another error. -/
structure TarStream where
  entries : List TarEntry
  corrupt : Bool
  deriving DecidableEq, Repr

/-- A member of `zip.Reader.File`: name, file type of the external attributes, whether
`f.Open()` fails, the bytes `io.Copy` obtains and whether that copy ends in an error. -/
structure ZipFile where
  Name : String
  mode : FileType
  openErr : Bool
  data : Bytes
  readErr : Bool
  deriving DecidableEq, Repr

/-- A response of `http.Get`: status code and status line, the body bytes that can be read,
and whether reading the body ends in an error. -/
structure Response where
  StatusCode : Nat
  Status : String
  body : Bytes
  readErr : Bool
  deriving DecidableEq, Repr

/-- The read-only surroundings of one run of the program. -/
structure Env where
  /-- Value of `runtime.GOOS`. -/
  GOOS : String
  /-- Value of `runtime.GOARCH`. -/
  GOARCH : String
  /-- Value of `os.Getenv`, empty for a variable that is not set. -/
  Getenv : String → String
  /-- Result of `os.Executable` followed by `filepath.EvalSymlinks`, `none` when either fails. -/
  executable : Option String
  /-- First result of `os.UserHomeDir` (empty on error). -/
  userHomeDir : String
  /-- The process umask. -/
  umask : Nat
  /-- Result of `exec.LookPath`, `none` when it returns an error. -/
  lookPath : String → Option String
  /-- Result of `http.Get`, `none` on a transport error. -/
  httpGet : String → Option Response
  /-- Result of `yaml.Unmarshal` into a `ToolsConfig`. -/
  yamlUnmarshal : Bytes → Option ToolsConfig
  /-- Result of `gzip.NewReader` plus `tar.NewReader` on the file content. -/
  tarGzReader : Bytes → Option TarStream
  /-- Result of `zip.OpenReader` on the file content. -/
  zipOpenReader : Bytes → Option (List ZipFile)

/-! ## `platform.go` -/

/-- Source: `detectPlatform`. -/
def detectPlatform (env : Env) : String :=
  env.GOOS ++ "-" ++ env.GOARCH

/-- Source: `getDCHome`. -/
def getDCHome (env : Env) : String :=
  if env.Getenv "DC_HOME" ≠ "" then env.Getenv "DC_HOME"
  else
    let fallback := Join [env.userHomeDir, ".local", "share", "dcx"]
    match env.executable with
    | none => fallback
    | some exe =>
      let binDir := Dir exe
      if Base binDir = "bin" then Dir binDir
      else if Base binDir = "dcx" then Dir (Dir binDir)
      else fallback

/-- Source: `getBinDir`. -/
def getBinDir (env : Env) (fs : FS) : String :=
  let dcHome := getDCHome env
  let devPath := Join [dcHome, "bin"]
  if (fs devPath).isSome ∧ (fs (Join [devPath, "dcx-" ++ detectPlatform env])).isSome then devPath
  else
    let installPath := Join [dcHome, "share", "DCX", "bin"]
    if (fs installPath).isSome then installPath else devPath

/-- Source: `getEtcDir`. -/
def getEtcDir (env : Env) (fs : FS) : String :=
  let dcHome := getDCHome env
  let devPath := Join [dcHome, "etc"]
  if (fs (Join [devPath, "tools.yaml"])).isSome then devPath
  else
    let installPath := Join [dcHome, "share", "DCX", "etc"]
    if (fs (Join [installPath, "tools.yaml"])).isSome then installPath else devPath

/-- Source: `getCacheDir`. -/
def getCacheDir (env : Env) : String :=
  Join [getDCHome env, "cache"]

/-! ## `binary.go` -/

/-- Source: `isExecutable`: `os.Stat` succeeds, the mode is regular and `mode & 0111 != 0`. -/
def isExecutable (fs : FS) (path : String) : Bool :=
  match fs path with
  | none => false
  | some info => info.type = FileType.regular && info.perm &&& 0o111 != 0

/-- Source: `findBinary`. -/
def findBinary (env : Env) (fs : FS) (name : String) : Except Error String :=
  let binDir := getBinDir env fs
  let platform := detectPlatform env
  let platformBin := Join [binDir, name ++ "-" ++ platform]
  if isExecutable fs platformBin then .ok platformBin
  else
    let genericBin := Join [binDir, name]
    if isExecutable fs genericBin then .ok genericBin
    else
      match env.lookPath name with
      | some path => .ok path
      | none => .error (.errorf ("binary not found: " ++ name))

/-! ## `tools.go`: member matching -/

/-- Source: `matchesBinaryName`. -/
def matchesBinaryName (filename binaryName : String) : Bool :=
  if filename = binaryName then true
  else if HasPrefix filename (binaryName ++ "_") || HasPrefix filename (binaryName ++ "-") then true
  else if binaryName = "yq" && HasPrefix filename "yq_" then true
  else false

/-! ## Package `os`: the mutating calls -/

/-- File-system mutations and network requests issued by the program, in program order. -/
inductive Event
  | mkdirAll (path : String)
  | httpGet (url : String)
  | create (path : String)
  | openFile (path : String)
  | write (path : String) (data : Bytes)
  | remove (path : String)
  deriving DecidableEq, Repr

/-- The mutable state of a run: the file system and the log of mutating calls. -/
structure World where
  fs : FS
  trace : List Event

/-- Record one call in the log. -/
def World.log (w : World) (e : Event) : World :=
  { w with trace := w.trace ++ [e] }

/-- Replace what is stored at one path. -/
def FS.set (fs : FS) (path : String) (n : Option Node) : FS :=
  fun p => if p = path then n else fs p

/-- Permission bits of a newly created file or directory: the requested bits minus the umask. -/
def applyUmask (env : Env) (perm : Nat) : Nat :=
  perm &&& (0o777 ^^^ (env.umask &&& 0o777))

/-- A new entry can be made at `path`: its parent is a directory with owner write and
search permission. -/
def canCreateIn (fs : FS) (path : String) : Bool :=
  match fs (Dir path) with
  | none => false
  | some d => d.type = FileType.dir && d.perm &&& 0o300 = 0o300

/-- The `open(2)` behind `os.Create` and `os.OpenFile` with `O_CREATE|O_TRUNC`: an existing
directory or special file, or a file lacking the owner bits `need`, is an error; an existing
regular file is truncated and keeps its mode; a missing file is created with `perm` minus
the umask. -/
def openTrunc (env : Env) (path : String) (perm need : Nat) (fs : FS) : Option Error × FS :=
  match fs path with
  | some n =>
    if n.type ≠ FileType.regular then (some (.pathError "open" path), fs)
    else if n.perm &&& need ≠ need then (some (.pathError "open" path), fs)
    else (none, FS.set fs path (some { n with content := [] }))
  | none =>
    if canCreateIn fs path then
      (none, FS.set fs path (some { type := .regular, perm := applyUmask env perm, content := [] }))
    else (some (.pathError "open" path), fs)

/-- Bytes written through an open file are appended to it. -/
def writeBytes (path : String) (data : Bytes) (fs : FS) : FS :=
  match fs path with
  | none => fs
  | some n =>
    if n.type = FileType.regular then FS.set fs path (some { n with content := n.content ++ data })
    else fs

/-- Go `os.Mkdir`. -/
def Mkdir (env : Env) (path : String) (perm : Nat) (fs : FS) : Option Error × FS :=
  match fs path with
  | some _ => (some (.pathError "mkdir" path), fs)
  | none =>
    if canCreateIn fs path then
      (none, FS.set fs path (some { type := .dir, perm := applyUmask env perm, content := [] }))
    else (some (.pathError "mkdir" path), fs)

/-- The path followed by its ancestors that `os.MkdirAll` recurses into: each time the
text before the last `/` (the recursion stops at an empty parent). -/
def ancestors : Nat → List Char → List String
  | 0, _ => []
  | fuel + 1, path =>
    let noTrail := (path.reverse.dropWhile (fun c => c = '/'))
    let parent := ((noTrail.dropWhile (fun c => c ≠ '/')).drop 1).reverse
    String.mk path :: (if parent = [] then [] else ancestors fuel parent)

/-- Go `os.MkdirAll` along the list of the path and its ancestors: an existing directory
ends the recursion with success, an existing non-directory with an error; otherwise the
parent is made first and then `Mkdir` is called. -/
def mkdirAllOn (env : Env) (perm : Nat) : List String → FS → Option Error × FS
  | [], fs => (none, fs)
  | p :: parents, fs =>
    match fs p with
    | some n =>
      if n.type = FileType.dir then (none, fs) else (some (.pathError "mkdir" p), fs)
    | none =>
      match mkdirAllOn env perm parents fs with
      | (some err, fs1) => (some err, fs1)
      | (none, fs1) => Mkdir env p perm fs1

/-- Go `os.MkdirAll`, logged. -/
def MkdirAll (env : Env) (path : String) (perm : Nat) (w : World) : Option Error × World :=
  let r := mkdirAllOn env perm (ancestors (path.data.length + 1) path.data) w.fs
  (r.1, { fs := r.2, trace := w.trace ++ [.mkdirAll path] })

/-- Go `os.Remove`, logged.  Like making an entry, removing one needs owner write and
search permission on the parent directory.  A directory is left in place (`rmdir` succeeds
on an empty directory only, and emptiness is not represented). -/
def Remove (path : String) (w : World) : Option Error × World :=
  let w1 := w.log (.remove path)
  match w.fs path with
  | none => (some (.pathError "remove" path), w1)
  | some n =>
    if n.type = FileType.dir then (some (.pathError "remove" path), w1)
    else if canCreateIn w.fs path then (none, { w1 with fs := FS.set w.fs path none })
    else (some (.pathError "remove" path), w1)

/-- Go `os.ReadFile`, also used for `os.Open` followed by reading the whole file. -/
def ReadFile (fs : FS) (path : String) : Except Error Bytes :=
  match fs path with
  | none => .error (.pathError "open" path)
  | some n =>
    if n.perm &&& 0o400 = 0 then .error (.pathError "open" path)
    else if n.type = FileType.dir then .error (.pathError "read" path)
    else .ok n.content

/-! ## `tools.go`: registry, download, extraction, install -/

/-- Source: `loadToolsConfig`. -/
def loadToolsConfig (env : Env) (fs : FS) : Except Error ToolsConfig :=
  let configPath := Join [getEtcDir env fs, "tools.yaml"]
  match ReadFile fs configPath with
  | .error err => .error (.wrapped "failed to read tools.yaml" err)
  | .ok data =>
    match env.yamlUnmarshal data with
    | none => .error (.wrapped "failed to parse tools.yaml" .formatError)
    | some config => .ok config

/-- Source: `downloadFile`. -/
def downloadFile (env : Env) (url dest : String) (w : World) : Option Error × World :=
  let w1 := w.log (.httpGet url)
  match env.httpGet url with
  | none => (some (.httpError url), w1)
  | some resp =>
    if resp.StatusCode ≠ 200 then
      (some (.errorf ("HTTP " ++ toString resp.StatusCode ++ ": " ++ resp.Status)), w1)
    else
      let w2 := w1.log (.create dest)
      match openTrunc env dest 0o666 0o600 w2.fs with
      | (some err, fs1) => (some err, { w2 with fs := fs1 })
      | (none, fs1) =>
        let w3 : World := { fs := writeBytes dest resp.body fs1, trace := w2.trace ++ [.write dest resp.body] }
        if resp.readErr then (some .readError, w3) else (none, w3)

/-- The part of both extractors that runs on a matching member: `os.OpenFile(dest,
O_CREATE|O_WRONLY|O_TRUNC, 0755)`, then `io.Copy` of the member into it. -/
def writeMember (env : Env) (dest : String) (data : Bytes) (readErr : Bool) (w : World) :
    Option Error × World :=
  let w1 := w.log (.openFile dest)
  match openTrunc env dest 0o755 0o200 w1.fs with
  | (some err, fs1) => (some err, { w1 with fs := fs1 })
  | (none, fs1) =>
    let w2 : World := { fs := writeBytes dest data fs1, trace := w1.trace ++ [.write dest data] }
    if readErr then (some .readError, w2) else (none, w2)

/-- Tar type flag of a regular file (`tar.TypeReg`). -/
def TypeReg : Char := '0'

/-- The `for` loop of `extractFromTarGz` over the members that `tr.Next()` yields. -/
def tarLoop (env : Env) (binaryName dest : String) (corrupt : Bool) :
    List TarEntry → World → Option Error × World
  | [], w =>
    if corrupt then (some .readError, w)
    else (some (.errorf ("binary " ++ binaryName ++ " not found in archive")), w)
  | header :: rest, w =>
    if header.Typeflag ≠ TypeReg then tarLoop env binaryName dest corrupt rest w
    else if matchesBinaryName (Base header.Name) binaryName then
      writeMember env dest header.data header.readErr w
    else tarLoop env binaryName dest corrupt rest w

/-- Source: `extractFromTarGz`.  The archive is decoded when it is opened, while the code
streams it; the two agree when the archive and the destination are different files.
When they are the same file the code reads an archive that it has truncated itself: what
the gzip reader has buffered is still read, the rest is lost. -/
def extractFromTarGz (env : Env) (archive binaryName dest : String) (w : World) :
    Option Error × World :=
  match ReadFile w.fs archive with
  | .error err => (some err, w)
  | .ok data =>
    match env.tarGzReader data with
    | none => (some .formatError, w)
    | some stream => tarLoop env binaryName dest stream.corrupt stream.entries w

/-- Go `zip.FileHeader.FileInfo().IsDir()`: the mode of the external attributes is a
directory, or the name ends with a slash. -/
def ZipFile.IsDir (f : ZipFile) : Bool :=
  f.mode = FileType.dir || HasSuffix f.Name "/"

/-- The `for` loop of `extractFromZip` over `r.File`. -/
def zipLoop (env : Env) (binaryName dest : String) : List ZipFile → World → Option Error × World
  | [], w => (some (.errorf ("binary " ++ binaryName ++ " not found in archive")), w)
  | f :: rest, w =>
    if f.IsDir then zipLoop env binaryName dest rest w
    else if matchesBinaryName (Base f.Name) binaryName then
      if f.openErr then (some .readError, w)
      else writeMember env dest f.data f.readErr w
    else zipLoop env binaryName dest rest w

/-- Source: `extractFromZip`.  The archive is decoded when it is opened, while the code
reads each member from the file when it copies it; the two agree when the archive and the
destination are different files. -/
def extractFromZip (env : Env) (archive binaryName dest : String) (w : World) :
    Option Error × World :=
  match ReadFile w.fs archive with
  | .error err => (some err, w)
  | .ok data =>
    match env.zipOpenReader data with
    | none => (some .formatError, w)
    | some files => zipLoop env binaryName dest files w

/-- Source: `toolsInstall`. -/
def toolsInstall (env : Env) (name : String) (force : Bool) (w : World) : Option Error × World :=
  match loadToolsConfig env w.fs with
  | .error err => (some err, w)
  | .ok config =>
    match config.Tools.lookup name with
    | none => (some (.errorf ("unknown tool: " ++ name)), w)
    | some tool =>
      let binDir := getBinDir env w.fs
      let destPath := Join [binDir, name]
      if !force && isExecutable w.fs destPath then (none, w)
      else
        let platform := detectPlatform env
        match tool.URLs.lookup platform with
        | none =>
          (some (.errorf ("no download URL for " ++ name ++ " on platform " ++ platform)), w)
        | some template =>
          let url := ReplaceAll template "\x7bversion\x7d" tool.Version
          let cacheDir := getCacheDir env
          let w1 := (MkdirAll env cacheDir 0o755 w).2
          let w2 := (MkdirAll env binDir 0o755 w1).2
          let ext := if tool.Extract = "zip" || HasSuffix url ".zip" then ".zip" else ".tar.gz"
          let archivePath := Join [cacheDir, name ++ "-" ++ tool.Version ++ ext]
          match downloadFile env url archivePath w2 with
          | (some err, w3) => (some (.wrapped "download failed" err), w3)
          | (none, w3) =>
            if ext = ".zip" then
              match extractFromZip env archivePath name destPath w3 with
              | (some err, w4) => (some (.wrapped "extraction failed" err), (Remove archivePath w4).2)
              | (none, w4) => (none, (Remove archivePath w4).2)
            else
              match extractFromTarGz env archivePath name destPath w3 with
              | (some err, w4) => (some (.wrapped "extraction failed" err), (Remove archivePath w4).2)
              | (none, w4) => (none, (Remove archivePath w4).2)

/-- How a run of `toolsInstallAll` ends. -/
structure InstallAllResult where
  /-- The calls of `toolsInstall` made by the loop, in order, each with the error it returned. -/
  calls : List (String × Option Error)
  /-- The final value of the counter `failed`, which the function reports. -/
  failed : Nat
  /-- The exit code: 1 when the function ends in `os.Exit(1)`, 0 when it returns. -/
  exitCode : Nat
  /-- The state the run leaves behind. -/
  world : World

/-- The `for` loop of `toolsInstallAll` over the keys of the registry.  The list `calls`
records each call of `toolsInstall` with its result. -/
def installAllLoop (env : Env) (force : Bool) :
    List String → List (String × Option Error) → Nat → World →
      List (String × Option Error) × Nat × World
  | [], calls, failed, w => (calls, failed, w)
  | name :: rest, calls, failed, w =>
    match toolsInstall env name force w with
    | (some err, w1) =>
      installAllLoop env force rest (calls ++ [(name, some err)]) (failed + 1) w1
    | (none, w1) => installAllLoop env force rest (calls ++ [(name, none)]) failed w1

/-- Source: `toolsInstallAll`.  The keys of the registry are visited in the order of the
association list (Go leaves the order of a map iteration open; every order is the order of
some list). -/
def toolsInstallAll (env : Env) (force : Bool) (w : World) : InstallAllResult :=
  match loadToolsConfig env w.fs with
  | .error _ => { calls := [], failed := 0, exitCode := 1, world := w }
  | .ok config =>
    let r := installAllLoop env force (config.Tools.map Prod.fst) [] 0 w
    { calls := r.1, failed := r.2.1, exitCode := if r.2.1 = 0 then 0 else 1, world := r.2.2 }

/-! ## `config.go`: dot-path access -/

/-- Address of a map object. -/
abbrev Addr := Nat

/-- A Go `interface{}` value as it occurs in a `map[string]interface{}`: `nil`, a string, a
`map[string]interface{}` (a reference to a map object; `none` is a typed nil map), or any
other value (number, boolean, list, map of another type), which the two functions treat
alike and never look into. -/
inductive Value
  | null
  | str (s : String)
  | other (repr : String)
  | map (ref : Option Addr)
  deriving DecidableEq, Repr

/-- The map objects of the program, by address.  Go maps are references: two entries may
hold the same map, and a map may hold itself. -/
abbrev Heap := List (List (String × Value))

/-- The entries of the map object at an address. -/
def Heap.read (h : Heap) (a : Addr) : List (String × Value) :=
  h.getD a []

/-- Go `m[key] = v` on the entries of a map. -/
def mapSet : List (String × Value) → String → Value → List (String × Value)
  | [], key, v => [(key, v)]
  | (k, old) :: rest, key, v =>
    if k = key then (key, v) :: rest else (k, old) :: mapSet rest key v

/-- Split a character list at every occurrence of a separator character. -/
def splitChar (sep : Char) : List Char → List (List Char)
  | [] => [[]]
  | c :: cs =>
    if c = sep then [] :: splitChar sep cs
    else
      match splitChar sep cs with
      | [] => [[c]]
      | x :: xs => (c :: x) :: xs

/-- Go `strings.Split(s, sep)` for a separator of one character. -/
def Split (s : String) (sep : Char) : List String :=
  (splitChar sep s.data).map String.mk

/-- The loop of `getNestedValue` over the parts of the key: a map is indexed (a missing
key and a nil map both give `nil`), anything else ends the lookup with `nil`. -/
def getParts : List String → Heap → Value → Value
  | [], _, current => current
  | part :: rest, h, .map (some a) => getParts rest h (((h.read a).lookup part).getD .null)
  | _ :: rest, h, .map none => getParts rest h .null
  | _ :: _, _, _ => .null

/-- Source: `getNestedValue`. -/
def getNestedValue (h : Heap) (m : Option Addr) (key : String) : Value :=
  getParts (Split key '.') h (.map m)

/-- The loop and the final assignment of `setNestedValue`; `none` is a panic.  At every part
but the last the map stored there is entered; where the key is missing or holds something
that is not a map, `make` allocates a new map object, which is stored there and entered.
The last part is assigned the string.  Every path through the code writes to the current
map before it leaves it, so a nil current map panics. -/
def setParts (value : String) : List String → Heap → Option Addr → Option Heap
  | [], _, _ => none
  | _ :: _, _, none => none
  | [last], h, some m => some (h.set m (mapSet (h.read m) last (.str value)))
  | part :: next :: rest, h, some m =>
    match (h.read m).lookup part with
    | some (.map ref) => setParts value (next :: rest) h ref
    | _ =>
      setParts value (next :: rest)
        (h.set m (mapSet (h.read m) part (.map (some h.length))) ++ [[]]) (some h.length)

/-- Source: `setNestedValue`; the heap after the call, or `none` when the call panics. -/
def setNestedValue (h : Heap) (m : Option Addr) (key : String) (value : String) : Option Heap :=
  setParts value (Split key '.') h m

/-! ## Specification-side notions -/

/-- The locator's check in the words of the specification: the path exists, is a regular
file, and at least one of the three execute permission bits (others, group, owner) is set. -/
def IsExecutableFile (fs : FS) (path : String) : Prop :=
  ∃ info : Node, fs path = some info ∧ info.type = FileType.regular ∧
    (info.perm.testBit 0 = true ∨ info.perm.testBit 3 = true ∨ info.perm.testBit 6 = true)

/-- A tar member that `extractFromTarGz` would extract: type flag `TypeReg` and a base
name that matches. -/
def tarCandidate (binaryName : String) (e : TarEntry) : Bool :=
  e.Typeflag = TypeReg && matchesBinaryName (Base e.Name) binaryName

/-- A zip member that `extractFromZip` would extract: not a directory and a base name
that matches. -/
def zipCandidate (binaryName : String) (f : ZipFile) : Bool :=
  !f.IsDir && matchesBinaryName (Base f.Name) binaryName

/-- The URL that `toolsInstall` downloads: the template with the version substituted. -/
def installURL (tool : ToolConfig) (template : String) : String :=
  ReplaceAll template "\x7bversion\x7d" tool.Version

/-- The extension `toolsInstall` gives the cache artifact. -/
def archiveExt (tool : ToolConfig) (template : String) : String :=
  if tool.Extract = "zip" || HasSuffix (installURL tool template) ".zip" then ".zip" else ".tar.gz"

/-- The path of the cache artifact. -/
def archivePathOf (env : Env) (name : String) (tool : ToolConfig) (template : String) : String :=
  Join [getCacheDir env, name ++ "-" ++ tool.Version ++ archiveExt tool template]

/-- The bytes of the member that extraction picks from an archive with the given bytes:
the first candidate of the zip when the extension is `.zip`, of the tar stream otherwise. -/
def matchedMember (env : Env) (ext binaryName : String) (archive : Bytes) : Option Bytes :=
  if ext = ".zip" then
    (env.zipOpenReader archive).bind fun files =>
      (files.find? (zipCandidate binaryName)).map fun f => f.data
  else
    (env.tarGzReader archive).bind fun stream =>
      (stream.entries.find? (tarCandidate binaryName)).map fun e => e.data

/-- Go `filepath.IsAbs` on Unix: the path begins with a slash. -/
def IsAbs (path : String) : Bool :=
  HasPrefix path "/"

/-- The matcher of the specification without the `yq` exception: the file name equals the
binary name, or begins with the binary name followed by `_` or by `-`. -/
def matchesTwoRules (filename binaryName : String) : Bool :=
  filename = binaryName || HasPrefix filename (binaryName ++ "_") ||
    HasPrefix filename (binaryName ++ "-")

/-- The state in which `toolsInstall` starts the download: after the two `os.MkdirAll`. -/
def beforeDownload (env : Env) (w : World) : World :=
  (MkdirAll env (getBinDir env w.fs) 0o755 (MkdirAll env (getCacheDir env) 0o755 w).2).2

/-- The steps of `toolsInstall` that follow a successful download: extraction with the
extractor chosen by the extension, then removal of the cache artifact. -/
def extractAndClean (env : Env) (ext archivePath name destPath : String) (w3 : World) :
    Option Error × World :=
  if ext = ".zip" then
    match extractFromZip env archivePath name destPath w3 with
    | (some err, w4) => (some (.wrapped "extraction failed" err), (Remove archivePath w4).2)
    | (none, w4) => (none, (Remove archivePath w4).2)
  else
    match extractFromTarGz env archivePath name destPath w3 with
    | (some err, w4) => (some (.wrapped "extraction failed" err), (Remove archivePath w4).2)
    | (none, w4) => (none, (Remove archivePath w4).2)

/-- The file system after a step that either changes nothing or leaves a regular file at
`path`, where there was none or a regular file before. -/
def Touches (fs fs1 : FS) (path : String) : Prop :=
  fs1 = fs ∨
    ∃ perm data, (fs path = none ∨ ∃ old, fs path = some old ∧ old.type = FileType.regular) ∧
      fs1 = FS.set fs path (some ⟨.regular, perm, data⟩)

/-- The walk of `setNestedValue` along the parts of a key is simple: every map it enters is
a map object of the heap, none is entered twice (`seen` lists the maps entered so far),
and no typed nil map is met. -/
def simpleWalk (h : Heap) : List String → Addr → List Addr → Bool
  | [], _, _ => true
  | [_], m, seen => decide (m < h.length) && !seen.contains m
  | part :: next :: rest, m, seen =>
    decide (m < h.length) && !seen.contains m &&
      match (h.read m).lookup part with
      | some (.map (some a)) => simpleWalk h (next :: rest) a (m :: seen)
      | some (.map none) => false
      | _ => true

/-- A heap with one map object that holds itself under the key `a`. -/
def selfHeap : Heap :=
  [[("a", .map (some 0))]]

/-- A heap with one map object that holds a typed nil map under the key `a`. -/
def nilHeap : Heap :=
  [[("a", .map none)]]

/-- A heap with a root map (address 0) that holds a string under `log` and the map at
address 1 under `database`. -/
def treeHeap : Heap :=
  [[("log", .str "info"), ("database", .map (some 1))], [("host", .str "localhost")]]

/-- The state after `toolsInstall` has been called for each of the names in turn, each call
starting where the one before it ended. -/
def stateAfter (env : Env) (force : Bool) (names : List String) (w : World) : World :=
  names.foldl (fun w1 name => (toolsInstall env name force w1).2) w

/-- The names with what `toolsInstall` returns for each when it is called for them in turn. -/
def installResults (env : Env) (force : Bool) : List String → World → List (String × Option Error)
  | [], _ => []
  | name :: rest, w =>
    (name, (toolsInstall env name force w).1) ::
      installResults env force rest (toolsInstall env name force w).2

/-! ## Concrete inputs

An installation rooted at `/opt/dcx` on `linux-amd64` with three registered tools:
`gum` (tar.gz release, a non-executable file already at the destination), `yq` (zip release,
already installed and executable) and `sg` (already installed, no URL for this platform). -/

/-- Registry entry of `gum`. -/
def gumTool : ToolConfig :=
  { Version := "0.14.5", Required := true, Description := "styling",
    URLs := [("linux-amd64", "https://example.org/gum_\x7bversion\x7d_linux_amd64.tar.gz")],
    Binary := "gum", Extract := "tar.gz" }

/-- Registry entry of `yq`. -/
def yqTool : ToolConfig :=
  { Version := "4.44.1", Required := true, Description := "yaml",
    URLs := [("linux-amd64", "https://example.org/v\x7bversion\x7d/yq_linux_amd64.zip")],
    Binary := "yq", Extract := "zip" }

/-- Registry entry of `sg`, which has no URL for `linux-amd64`. -/
def sgTool : ToolConfig :=
  { Version := "0.25.0", Required := false, Description := "structural search",
    URLs := [("darwin-arm64", "https://example.org/sg-\x7bversion\x7d.zip")],
    Binary := "sg", Extract := "zip" }

/-- The registry. -/
def sampleConfig : ToolsConfig :=
  { Settings := { AutoDownload := true, VerifyChecksum := false, CacheDir := "" },
    Tools := [("sg", sgTool), ("gum", gumTool), ("yq", yqTool)] }

/-- The tar stream of the `gum` release: a directory and the binary inside it. -/
def gumStream : TarStream :=
  { entries :=
      [{ Name := "gum_0.14.5_linux_amd64/", Typeflag := '5', data := [], readErr := false },
       { Name := "gum_0.14.5_linux_amd64/gum", Typeflag := '0', data := [4, 5], readErr := false }],
    corrupt := false }

/-- The zip of the `yq` release: `yq_linux_amd64.exe`, then `yq_linux_amd64`. -/
def yqFiles : List ZipFile :=
  [{ Name := "yq_linux_amd64.exe", mode := .regular, openErr := false, data := [10, 11], readErr := false },
   { Name := "yq_linux_amd64", mode := .regular, openErr := false, data := [12, 13], readErr := false }]

/-- A tar stream whose first member named `gum` is a symbolic link, followed by a regular
file of the same name. -/
def linkFirstStream : TarStream :=
  { entries :=
      [{ Name := "gum", Typeflag := '2', data := [], readErr := false },
       { Name := "bin/gum", Typeflag := '0', data := [4, 5], readErr := false }],
    corrupt := false }

/-- A zip whose only member is a symbolic link named `gum`; its data is the link target. -/
def linkOnlyFiles : List ZipFile :=
  [{ Name := "gum", mode := .symlink, openErr := false, data := [20, 21], readErr := false }]

/-- The surroundings: `DC_HOME=/opt/dcx`, platform `linux-amd64`, umask `022`; the HTTP
server and the decoders know the archives above by their bytes. -/
def sampleEnv : Env :=
  { GOOS := "linux", GOARCH := "amd64",
    Getenv := fun key => if key = "DC_HOME" then "/opt/dcx" else "",
    executable := none,
    userHomeDir := "/home/dev", umask := 0o022,
    lookPath := fun name => if name = "rg" then some "/usr/bin/rg" else none,
    httpGet := fun url =>
      if url = "https://example.org/gum_0.14.5_linux_amd64.tar.gz" then
        some { StatusCode := 200, Status := "200 OK", body := [1, 2, 3], readErr := false }
      else if url = "https://example.org/v4.44.1/yq_linux_amd64.zip" then
        some { StatusCode := 200, Status := "200 OK", body := [6, 7], readErr := false }
      else none,
    yamlUnmarshal := fun data => if data = [42] then some sampleConfig else none,
    tarGzReader := fun data =>
      if data = [1, 2, 3] then some gumStream
      else if data = [3, 2, 1] then some linkFirstStream
      else none,
    zipOpenReader := fun data =>
      if data = [6, 7] then some yqFiles
      else if data = [7, 6] then some linkOnlyFiles
      else none }

/-- The disk: the registry document, a non-executable `gum`, executable `yq` and `sg`, and
three archives in the cache directory. -/
def sampleFS : FS := fun p =>
  if p = "/" then some ⟨.dir, 0o755, []⟩
  else if p = "/opt" then some ⟨.dir, 0o755, []⟩
  else if p = "/opt/dcx" then some ⟨.dir, 0o755, []⟩
  else if p = "/opt/dcx/etc" then some ⟨.dir, 0o755, []⟩
  else if p = "/opt/dcx/etc/tools.yaml" then some ⟨.regular, 0o644, [42]⟩
  else if p = "/opt/dcx/bin" then some ⟨.dir, 0o755, []⟩
  else if p = "/opt/dcx/bin/gum" then some ⟨.regular, 0o644, [9, 9]⟩
  else if p = "/opt/dcx/bin/yq" then some ⟨.regular, 0o755, [8, 8, 8]⟩
  else if p = "/opt/dcx/bin/sg" then some ⟨.regular, 0o755, [7, 7]⟩
  else if p = "/opt/dcx/cache" then some ⟨.dir, 0o755, []⟩
  else if p = "/opt/dcx/cache/gum.tar.gz" then some ⟨.regular, 0o644, [1, 2, 3]⟩
  else if p = "/opt/dcx/cache/links.tar.gz" then some ⟨.regular, 0o644, [3, 2, 1]⟩
  else if p = "/opt/dcx/cache/yq.zip" then some ⟨.regular, 0o644, [6, 7]⟩
  else if p = "/opt/dcx/cache/links.zip" then some ⟨.regular, 0o644, [7, 6]⟩
  else none

/-- The initial state: the disk above and an empty log. -/
def sampleWorld : World :=
  { fs := sampleFS, trace := [] }

/-- A registry entry whose version string leads the cache artifact path back into the
binaries directory. -/
def aliasTool : ToolConfig :=
  { Version := "/../../bin/x", Required := false, Description := "",
    URLs := [("linux-amd64", "https://example.org/x.tar.gz")],
    Binary := "x.tar.gz", Extract := "tar.gz" }

/-- A registry with that entry under the name `x.tar.gz`. -/
def aliasConfig : ToolsConfig :=
  { Settings := { AutoDownload := true, VerifyChecksum := false, CacheDir := "" },
    Tools := [("x.tar.gz", aliasTool)] }

/-- The release archive of that tool: one regular member named `x.tar.gz`. -/
def aliasStream : TarStream :=
  { entries := [{ Name := "x.tar.gz", Typeflag := '0', data := [4, 5], readErr := false }],
    corrupt := false }

/-- The surroundings of `sampleEnv` with that registry and archive. -/
def aliasEnv : Env :=
  { sampleEnv with
    httpGet := fun url =>
      if url = "https://example.org/x.tar.gz" then
        some { StatusCode := 200, Status := "200 OK", body := [1, 2, 3], readErr := false }
      else none,
    yamlUnmarshal := fun data => if data = [42] then some aliasConfig else none,
    tarGzReader := fun data => if data = [1, 2, 3] then some aliasStream else none }

/-- The disk of `sampleFS` with the tool already installed and executable. -/
def aliasWorld : World :=
  { fs := FS.set sampleFS "/opt/dcx/bin/x.tar.gz" (some ⟨.regular, 0o755, [8, 8]⟩), trace := [] }

/-- Surroundings without an override variable, the executable being `/home/dev/dcx/tool`:
its directory is named `dcx` but is not a `cmd/dcx`. -/
def dcxDirEnv : Env :=
  { sampleEnv with Getenv := fun _ => "", executable := some "/home/dev/dcx/tool" }

/-- The disk of `sampleFS` with an installed-layout directory `share/DCX/bin` that holds
no marker file. -/
def installedFS : FS :=
  FS.set sampleFS "/opt/dcx/share/DCX/bin" (some ⟨.dir, 0o755, []⟩)

/-- Surroundings whose override variable holds the relative path `work/dcx`. -/
def relativeEnv : Env :=
  { sampleEnv with Getenv := fun key => if key = "DC_HOME" then "work/dcx" else "" }

/-- Surroundings without an override variable, without a known executable and with an
undeterminable home directory. -/
def noHomeEnv : Env :=
  { sampleEnv with Getenv := fun _ => "", executable := none, userHomeDir := "" }

/-- Surroundings in which `DCX_HOME` is set to `/srv/dcx` and `DC_HOME` is not set. -/
def dcxHomeEnv : Env :=
  { sampleEnv with Getenv := fun key => if key = "DCX_HOME" then "/srv/dcx" else "" }

/-- The disk of `sampleFS` with a cache directory that cannot be written (mode `0555`) and
holds an artifact left by an earlier run. -/
def staleCacheWorld : World :=
  { fs := FS.set (FS.set sampleFS "/opt/dcx/cache" (some ⟨.dir, 0o555, []⟩))
      "/opt/dcx/cache/yq-4.44.1.zip" (some ⟨.regular, 0o644, [0]⟩),
    trace := [] }

/-- A registry entry whose key `ast-grep` differs from its binary name `sg`. -/
def astGrepTool : ToolConfig :=
  { Version := "0.25.0", Required := false, Description := "structural search",
    URLs := [("linux-amd64", "https://example.org/ast-grep-\x7bversion\x7d.zip")],
    Binary := "sg", Extract := "zip" }

/-- A registry with that entry. -/
def astGrepConfig : ToolsConfig :=
  { Settings := { AutoDownload := true, VerifyChecksum := false, CacheDir := "" },
    Tools := [("ast-grep", astGrepTool)] }

/-- The release zip of that tool: one regular member named `sg`. -/
def astGrepFiles : List ZipFile :=
  [{ Name := "sg", mode := .regular, openErr := false, data := [30, 31], readErr := false }]

/-- The surroundings of `sampleEnv` with that registry and archive. -/
def astGrepEnv : Env :=
  { sampleEnv with
    httpGet := fun url =>
      if url = "https://example.org/ast-grep-0.25.0.zip" then
        some { StatusCode := 200, Status := "200 OK", body := [6, 7], readErr := false }
      else none,
    yamlUnmarshal := fun data => if data = [42] then some astGrepConfig else none,
    zipOpenReader := fun data => if data = [6, 7] then some astGrepFiles else none }

/-- The registry with the `binary` field of every entry replaced. -/
def withBinary (binary : String) (config : ToolsConfig) : ToolsConfig :=
  { config with Tools := config.Tools.map fun e => (e.1, { e.2 with Binary := binary }) }

/-- The surroundings in which every registry document decodes with the `binary` field of
every entry replaced. -/
def Env.withBinary (env : Env) (binary : String) : Env :=
  { env with yamlUnmarshal := fun data => (env.yamlUnmarshal data).map (Dcx.withBinary binary) }

/-! ## Sanity checks of the library models -/

example : Join ["/opt/dcx", "bin"] = "/opt/dcx/bin" := by decide
example : Join ["/opt/dcx/bin", "../x/./y//z/"] = "/opt/dcx/x/y/z" := by decide
example : Join ["", ""] = "" := by decide
example : Join ["..", "../a/../.."] = "../../.." := by decide
example : Join ["/..", "a"] = "/a" := by decide
example : Clean "" = "." := by decide
example : Base "gum_0.14.5_linux_amd64/gum" = "gum" := by decide
example : Base "a/b/" = "b" := by decide
example : Base "///" = "/" := by decide
example : Dir "/opt/dcx/bin/dcx" = "/opt/dcx/bin" := by decide
example : Dir "dcx" = "." := by decide
example : Dir "/dcx" = "/" := by decide
example : ReplaceAll "a/\x7bversion\x7d/b-\x7bversion\x7d.zip" "\x7bversion\x7d" "1.2" = "a/1.2/b-1.2.zip" := by decide
example : matchesBinaryName "yq_linux_amd64" "yq" = true := by decide
example : HasSuffix "a.zip" ".zip" = true := by decide
example : Split "a.b..c" '.' = ["a", "b", "", "c"] := by decide
example : Split "" '.' = [""] := by decide

/-! ## Helper lemmas: strings, permission bits, lookup -/

/-- The test `HasPrefix` holds exactly when the string begins with the given text. -/
theorem hasPrefix_iff (s pfx : String) :
    HasPrefix s pfx = true ↔ ∃ rest : String, s = pfx ++ rest := by
  unfold HasPrefix
  rw [List.isPrefixOf_iff_prefix]
  constructor
  · rintro ⟨t, ht⟩
    refine ⟨String.mk t, ?_⟩
    apply String.ext
    simp [String.data_append, ht]
  · rintro ⟨rest, h⟩
    exact ⟨rest.data, by rw [h, String.data_append]⟩

theorem testBit_73 (i : Nat) : Nat.testBit 73 i = true ↔ i = 0 ∨ i = 3 ∨ i = 6 := by
  by_cases h : i < 7
  · interval_cases i <;> decide
  · have h7 : 7 ≤ i := Nat.le_of_not_lt h
    have : (73 : Nat) < 2 ^ i :=
      lt_of_lt_of_le (by norm_num : (73 : Nat) < 2 ^ 7) (Nat.pow_le_pow_right (by norm_num) h7)
    rw [Nat.testBit_lt_two_pow this]
    constructor
    · intro hf; cases hf
    · rintro (rfl | rfl | rfl) <;> omega

/-- The test `mode & 0111 != 0` says that one of the three execute bits is set. -/
theorem execBits_iff (p : Nat) :
    (p &&& 0o111 != 0) = true ↔
      (p.testBit 0 = true ∨ p.testBit 3 = true ∨ p.testBit 6 = true) := by
  have h73 : (0o111 : Nat) = 73 := by norm_num
  rw [h73]
  simp only [bne_iff_ne, ne_eq]
  constructor
  · intro h
    obtain ⟨i, hi⟩ := Nat.ne_zero_implies_bit_true h
    rw [Nat.testBit_and, Bool.and_eq_true] at hi
    rcases (testBit_73 i).1 hi.2 with rfl | rfl | rfl
    · exact Or.inl hi.1
    · exact Or.inr (Or.inl hi.1)
    · exact Or.inr (Or.inr hi.1)
  · intro h hz
    have key : ∀ i, p.testBit i = true → Nat.testBit 73 i = true → False := by
      intro i h1 h2
      have : (p &&& 73).testBit i = true := by rw [Nat.testBit_and, h1, h2]; rfl
      rw [hz] at this
      simp at this
    rcases h with h | h | h
    · exact key 0 h (by decide)
    · exact key 3 h (by decide)
    · exact key 6 h (by decide)

/-- The function `isExecutable` decides the executable-file check of the specification. -/
theorem isExecutable_iff (fs : FS) (path : String) :
    isExecutable fs path = true ↔ IsExecutableFile fs path := by
  unfold isExecutable IsExecutableFile
  cases h : fs path with
  | none => simp
  | some info =>
    simp only [Bool.and_eq_true, decide_eq_true_eq, execBits_iff, Option.some.injEq,
      exists_eq_left']

theorem lookup_eq_none_of_not_key {β : Type} (name : String) :
    ∀ l : List (String × β), (∀ v, (name, v) ∉ l) → l.lookup name = none
  | [], _ => rfl
  | (k, v) :: rest, h => by
    have hk : name ≠ k := by
      rintro rfl
      exact h v (List.mem_cons_self _ _)
    have hrest : ∀ v', (name, v') ∉ rest := fun v' hm => h v' (List.mem_cons_of_mem _ hm)
    have hbeq : (name == k) = false := by simpa using hk
    simp only [List.lookup, hbeq]
    exact lookup_eq_none_of_not_key name rest hrest

/-! ## The binary locator -/

/-- C1. `findBinary` returns `binDir/{name}-{platform}` when that is an executable regular
file; otherwise `binDir/{name}` when that is one; otherwise the result of the PATH lookup
when it succeeds; it returns an error exactly when the three checks fail, and the error
is the not-found error. -/
theorem findBinary_precedence (env : Env) (fs : FS) (name : String) :
    (IsExecutableFile fs (Join [getBinDir env fs, name ++ "-" ++ detectPlatform env]) →
      findBinary env fs name = .ok (Join [getBinDir env fs, name ++ "-" ++ detectPlatform env])) ∧
    (¬ IsExecutableFile fs (Join [getBinDir env fs, name ++ "-" ++ detectPlatform env]) →
      IsExecutableFile fs (Join [getBinDir env fs, name]) →
      findBinary env fs name = .ok (Join [getBinDir env fs, name])) ∧
    (¬ IsExecutableFile fs (Join [getBinDir env fs, name ++ "-" ++ detectPlatform env]) →
      ¬ IsExecutableFile fs (Join [getBinDir env fs, name]) →
      ∀ path, env.lookPath name = some path → findBinary env fs name = .ok path) ∧
    ((∃ err, findBinary env fs name = .error err) ↔
      (¬ IsExecutableFile fs (Join [getBinDir env fs, name ++ "-" ++ detectPlatform env]) ∧
        ¬ IsExecutableFile fs (Join [getBinDir env fs, name]) ∧
        env.lookPath name = none)) ∧
    (∀ err, findBinary env fs name = .error err →
      err = .errorf ("binary not found: " ++ name)) := by
  simp only [← isExecutable_iff, Bool.not_eq_true]
  unfold findBinary
  cases h1 : isExecutable fs (Join [getBinDir env fs, name ++ "-" ++ detectPlatform env]) <;>
    cases h2 : isExecutable fs (Join [getBinDir env fs, name]) <;>
    cases h3 : env.lookPath name <;> simp [h1, h2, h3]

/-! ## Member matching -/

/-- C2. `matchesBinaryName filename binaryName` is true if and only if the file name equals
the binary name, or begins with the binary name followed by `_` or by `-`, or the binary
name is `yq` and the file name begins with `yq_`. -/
theorem matchesBinaryName_iff (filename binaryName : String) :
    matchesBinaryName filename binaryName = true ↔
      (filename = binaryName ∨
        (∃ rest : String, filename = binaryName ++ "_" ++ rest) ∨
        (∃ rest : String, filename = binaryName ++ "-" ++ rest) ∨
        (binaryName = "yq" ∧ ∃ rest : String, filename = "yq_" ++ rest)) := by
  unfold matchesBinaryName
  simp only [← hasPrefix_iff]
  by_cases h0 : filename = binaryName
  · simp [h0]
  · cases h1 : HasPrefix filename (binaryName ++ "_") <;>
      cases h2 : HasPrefix filename (binaryName ++ "-") <;>
      cases h3 : HasPrefix filename "yq_" <;>
      by_cases h4 : binaryName = "yq" <;> simp [h0, h4]

/-! ## The installer: paths that return before any mutation -/

/-- C3. When the registry loads and the name is not one of its keys, `toolsInstall` returns
the unknown-tool error for either value of `force`, and the state it returns is the state
it was given: the file system is the same and the log of mutating calls (directory
creation, file creation, writes, removals, HTTP requests) has no new entry. -/
theorem toolsInstall_unknown_tool (env : Env) (w : World) (config : ToolsConfig)
    (name : String) (force : Bool)
    (hload : loadToolsConfig env w.fs = .ok config)
    (hname : ∀ tool, (name, tool) ∉ config.Tools) :
    toolsInstall env name force w = (some (.errorf ("unknown tool: " ++ name)), w) := by
  unfold toolsInstall
  simp only [hload, lookup_eq_none_of_not_key name config.Tools hname]

theorem toolsInstall_unknown_tool_witness :
    loadToolsConfig sampleEnv sampleWorld.fs = .ok sampleConfig ∧
    toolsInstall sampleEnv "fd" true sampleWorld
      = (some (.errorf ("unknown tool: " ++ "fd")), sampleWorld) ∧
    toolsInstall sampleEnv "fd" false sampleWorld
      = (some (.errorf ("unknown tool: " ++ "fd")), sampleWorld) :=
  have hname : ∀ tool, ("fd", tool) ∉ sampleConfig.Tools := by
    intro tool h
    simp [sampleConfig] at h
  ⟨rfl, toolsInstall_unknown_tool sampleEnv sampleWorld sampleConfig "fd" true rfl hname,
    toolsInstall_unknown_tool sampleEnv sampleWorld sampleConfig "fd" false rfl hname⟩

/-- C4. For a registered tool whose `urls` mapping has no entry for the current platform,
when the already-installed check does not apply (`force` is true, or `binDir/name` is not
an executable file), `toolsInstall` returns the no-platform-URL error and the state it was
given: no HTTP request, no directory or file created. -/
theorem toolsInstall_no_platform_url (env : Env) (w : World) (config : ToolsConfig)
    (name : String) (tool : ToolConfig) (force : Bool)
    (hload : loadToolsConfig env w.fs = .ok config)
    (htool : config.Tools.lookup name = some tool)
    (hurl : ∀ template, (detectPlatform env, template) ∉ tool.URLs)
    (hgo : force = true ∨ ¬ IsExecutableFile w.fs (Join [getBinDir env w.fs, name])) :
    toolsInstall env name force w =
      (some (.errorf ("no download URL for " ++ name ++ " on platform " ++ detectPlatform env)),
        w) := by
  have hskip : (!force && isExecutable w.fs (Join [getBinDir env w.fs, name])) = false := by
    rcases hgo with h | h
    · simp [h]
    · rw [← isExecutable_iff, Bool.not_eq_true] at h
      simp [h]
  unfold toolsInstall
  simp only [hload, htool, hskip, lookup_eq_none_of_not_key _ tool.URLs hurl]
  simp

theorem toolsInstall_no_platform_url_witness :
    toolsInstall sampleEnv "sg" true sampleWorld =
      (some (.errorf ("no download URL for " ++ "sg" ++ " on platform " ++
        detectPlatform sampleEnv)), sampleWorld) :=
  toolsInstall_no_platform_url sampleEnv sampleWorld sampleConfig "sg" sgTool true rfl rfl
    (by intro template h; simp [sgTool, detectPlatform, sampleEnv] at h) (Or.inl rfl)

/-- C5. For a registered tool, if `binDir/name` is an executable regular file and `force`
is false, `toolsInstall` returns success and the state it was given: nothing is downloaded,
written or removed, and the destination is unchanged.  Nothing is assumed about the
descriptor's URLs, so this holds also when there is none for the current platform. -/
theorem toolsInstall_already_installed (env : Env) (w : World) (config : ToolsConfig)
    (name : String) (tool : ToolConfig)
    (hload : loadToolsConfig env w.fs = .ok config)
    (htool : config.Tools.lookup name = some tool)
    (hexec : IsExecutableFile w.fs (Join [getBinDir env w.fs, name])) :
    toolsInstall env name false w = (none, w) := by
  rw [← isExecutable_iff] at hexec
  unfold toolsInstall
  simp only [hload, htool, hexec]
  simp

theorem toolsInstall_already_installed_witness :
    sgTool.URLs.lookup (detectPlatform sampleEnv) = none ∧
    toolsInstall sampleEnv "sg" false sampleWorld = (none, sampleWorld) :=
  ⟨by decide,
    toolsInstall_already_installed sampleEnv sampleWorld sampleConfig "sg" sgTool rfl rfl
      ((isExecutable_iff _ _).1 (by decide))⟩


/-! ## Helper lemmas: opening, writing, the extraction loops -/

/-- A successful `openTrunc` leaves an empty regular file at the path; an existing file
keeps its mode, a new one gets the requested mode minus the umask. -/
theorem openTrunc_ok (env : Env) (path : String) (perm need : Nat) (fs fs1 : FS)
    (h : openTrunc env path perm need fs = (none, fs1)) :
    ∃ p, fs1 = FS.set fs path (some ⟨.regular, p, []⟩) ∧
      (∀ old, fs path = some old → p = old.perm) ∧
      (fs path = none → p = applyUmask env perm) := by
  unfold openTrunc at h
  cases hp : fs path with
  | none =>
    simp only [hp] at h
    split at h
    · simp only [Prod.mk.injEq, true_and] at h
      exact ⟨_, h.symm, by simp, fun _ => rfl⟩
    · simp at h
  | some old =>
    simp only [hp] at h
    split at h
    · simp at h
    · split at h
      · simp at h
      · rename_i hreg _
        simp only [Prod.mk.injEq, true_and] at h
        refine ⟨old.perm, ?_, by simp, by simp⟩
        rw [← h]
        have : old.type = .regular := by simpa using hreg
        cases old
        simp_all

/-- A failed `openTrunc` changes nothing. -/
theorem openTrunc_err (env : Env) (path : String) (perm need : Nat) (fs fs1 : FS) (e : Error)
    (h : openTrunc env path perm need fs = (some e, fs1)) : fs1 = fs := by
  unfold openTrunc at h
  cases hp : fs path with
  | none =>
    simp only [hp] at h
    split at h
    · simp at h
    · simp only [Prod.mk.injEq] at h; exact h.2.symm
  | some old =>
    simp only [hp] at h
    split at h
    · simp only [Prod.mk.injEq] at h; exact h.2.symm
    · split at h
      · simp only [Prod.mk.injEq] at h; exact h.2.symm
      · simp at h

theorem set_same (fs : FS) (path : String) (n : Option Node) : FS.set fs path n path = n := by
  simp [FS.set]

theorem set_other (fs : FS) (path p : String) (n : Option Node) (h : p ≠ path) :
    FS.set fs path n p = fs p := by
  simp [FS.set, h]

theorem writeBytes_fresh (fs : FS) (path : String) (p : Nat) (data : Bytes) :
    writeBytes path data (FS.set fs path (some ⟨.regular, p, []⟩)) =
      FS.set fs path (some ⟨.regular, p, data⟩) := by
  funext q
  unfold writeBytes
  simp only [set_same]
  by_cases hq : q = path
  · subst hq; simp [FS.set]
  · simp [FS.set, hq]

/-- What a successful `writeMember` leaves behind. -/
theorem writeMember_ok (env : Env) (dest : String) (data : Bytes) (re : Bool) (w w1 : World)
    (h : writeMember env dest data re w = (none, w1)) :
    ∃ p, w1.fs = FS.set w.fs dest (some ⟨.regular, p, data⟩) ∧
      (∀ old, w.fs dest = some old → p = old.perm) ∧
      (w.fs dest = none → p = applyUmask env 0o755) ∧
      w1.trace = w.trace ++ [.openFile dest, .write dest data] := by
  unfold writeMember at h
  simp only [World.log] at h
  cases ho : openTrunc env dest 0o755 0o200 w.fs with
  | mk r fs1 =>
    cases r with
    | some e => simp [ho] at h
    | none =>
      obtain ⟨p, hfs, hold, hnew⟩ := openTrunc_ok env dest _ _ _ _ ho
      simp only [ho] at h
      split at h
      · simp at h
      · simp only [Prod.mk.injEq, true_and] at h
        refine ⟨p, ?_, hold, hnew, ?_⟩
        · rw [← h, hfs, writeBytes_fresh]
        · rw [← h]; simp

/-- Whatever `writeMember` does, it touches the destination only, and it logs the open and
at most one write, of the given bytes. -/
theorem writeMember_frame (env : Env) (dest : String) (data : Bytes) (re : Bool) (w : World) :
    (∀ p, p ≠ dest → (writeMember env dest data re w).2.fs p = w.fs p) ∧
    ((writeMember env dest data re w).2 = w.log (.openFile dest) ∨
      (writeMember env dest data re w).2.trace = w.trace ++ [.openFile dest, .write dest data]) := by
  unfold writeMember
  simp only [World.log]
  cases ho : openTrunc env dest 0o755 0o200 w.fs with
  | mk r fs1 =>
    cases r with
    | some e =>
      have := openTrunc_err env dest _ _ _ _ _ ho
      subst this
      simp
    | none =>
      obtain ⟨p, hfs, -, -⟩ := openTrunc_ok env dest _ _ _ _ ho
      simp only []
      constructor
      · intro q hq
        split <;> simp only [hfs, writeBytes_fresh, set_other _ _ _ _ hq]
      · right
        split <;> simp

/-- The tar loop extracts the first candidate, if there is one. -/
theorem tarLoop_eq (env : Env) (binaryName dest : String) (corrupt : Bool) (w : World) :
    ∀ entries : List TarEntry,
      tarLoop env binaryName dest corrupt entries w =
        match entries.find? (tarCandidate binaryName) with
        | some e => writeMember env dest e.data e.readErr w
        | none =>
          (some (if corrupt then Error.readError
            else Error.errorf ("binary " ++ binaryName ++ " not found in archive")), w)
  | [] => by
    unfold tarLoop
    cases corrupt <;> simp
  | e :: rest => by
    have ih := tarLoop_eq env binaryName dest corrupt w rest
    unfold tarLoop
    by_cases h1 : e.Typeflag = TypeReg
    · by_cases h2 : matchesBinaryName (Base e.Name) binaryName = true
      · simp [List.find?, tarCandidate, h1, h2]
      · simp only [Bool.not_eq_true] at h2
        simp [List.find?, tarCandidate, h1, h2, ih]
    · simp [List.find?, tarCandidate, h1, ih]

/-- The zip loop extracts the first candidate, if there is one. -/
theorem zipLoop_eq (env : Env) (binaryName dest : String) (w : World) :
    ∀ files : List ZipFile,
      zipLoop env binaryName dest files w =
        match files.find? (zipCandidate binaryName) with
        | some f =>
          if f.openErr then (some Error.readError, w)
          else writeMember env dest f.data f.readErr w
        | none => (some (Error.errorf ("binary " ++ binaryName ++ " not found in archive")), w)
  | [] => by
    unfold zipLoop
    simp
  | f :: rest => by
    have ih := zipLoop_eq env binaryName dest w rest
    unfold zipLoop
    by_cases h1 : f.IsDir = true
    · simp [List.find?, zipCandidate, h1, ih]
    · simp only [Bool.not_eq_true] at h1
      by_cases h2 : matchesBinaryName (Base f.Name) binaryName = true
      · simp [List.find?, zipCandidate, h1, h2]
      · simp only [Bool.not_eq_true] at h2
        simp [List.find?, zipCandidate, h1, h2, ih]

/-- With the archive read and decoded, `extractFromTarGz` is the first-candidate rule. -/
theorem extractFromTarGz_eq (env : Env) (w : World) (archive binaryName dest : String)
    (data : Bytes) (stream : TarStream)
    (hread : ReadFile w.fs archive = .ok data) (hdec : env.tarGzReader data = some stream) :
    extractFromTarGz env archive binaryName dest w =
      match stream.entries.find? (tarCandidate binaryName) with
      | some e => writeMember env dest e.data e.readErr w
      | none =>
        (some (if stream.corrupt then Error.readError
          else Error.errorf ("binary " ++ binaryName ++ " not found in archive")), w) := by
  unfold extractFromTarGz
  simp only [hread, hdec]
  exact tarLoop_eq env binaryName dest stream.corrupt w stream.entries

/-- With the archive read and decoded, `extractFromZip` is the first-candidate rule. -/
theorem extractFromZip_eq (env : Env) (w : World) (archive binaryName dest : String)
    (data : Bytes) (files : List ZipFile)
    (hread : ReadFile w.fs archive = .ok data) (hdec : env.zipOpenReader data = some files) :
    extractFromZip env archive binaryName dest w =
      match files.find? (zipCandidate binaryName) with
      | some f =>
        if f.openErr then (some Error.readError, w)
        else writeMember env dest f.data f.readErr w
      | none => (some (Error.errorf ("binary " ++ binaryName ++ " not found in archive")), w) := by
  unfold extractFromZip
  simp only [hread, hdec]
  exact zipLoop_eq env binaryName dest w files

/-! ## The archive extractor -/

/-- C8, evaluated where it fails.  The destination `/opt/dcx/bin/gum` is an existing regular
file of mode `0644`; the tar archive has the regular member `gum_0.14.5_linux_amd64/gum`.
Extraction succeeds and the content becomes the member's bytes, but the mode is still
`0644` and the locator's executable check rejects the file.  The zip extractor behaves
the same way. -/
theorem extract_over_nonexecutable_file :
    sampleWorld.fs "/opt/dcx/bin/gum" = some ⟨.regular, 0o644, [9, 9]⟩ ∧
    (∃ e ∈ gumStream.entries, e.Typeflag = TypeReg ∧
      matchesBinaryName (Base e.Name) "gum" = true ∧ e.data = [4, 5]) ∧
    (extractFromTarGz sampleEnv "/opt/dcx/cache/gum.tar.gz" "gum" "/opt/dcx/bin/gum"
      sampleWorld).1 = none ∧
    (extractFromTarGz sampleEnv "/opt/dcx/cache/gum.tar.gz" "gum" "/opt/dcx/bin/gum"
      sampleWorld).2.fs "/opt/dcx/bin/gum" = some ⟨.regular, 0o644, [4, 5]⟩ ∧
    isExecutable (extractFromTarGz sampleEnv "/opt/dcx/cache/gum.tar.gz" "gum"
      "/opt/dcx/bin/gum" sampleWorld).2.fs "/opt/dcx/bin/gum" = false ∧
    (extractFromZip sampleEnv "/opt/dcx/cache/yq.zip" "yq" "/opt/dcx/bin/gum"
      sampleWorld).1 = none ∧
    (extractFromZip sampleEnv "/opt/dcx/cache/yq.zip" "yq" "/opt/dcx/bin/gum"
      sampleWorld).2.fs "/opt/dcx/bin/gum" = some ⟨.regular, 0o644, [10, 11]⟩ := by
  decide

/-- C9, evaluated where it fails.  The tar archive holds two non-directory members whose
base name is `gum`: a symbolic link (no data) and then a regular file with bytes `[4, 5]`.
The tar extractor skips every member that is not a regular file, so extraction succeeds and
the destination holds `[4, 5]`, the bytes of the second of them, not of the first. -/
theorem extractFromTarGz_skips_symlink_member :
    ReadFile sampleWorld.fs "/opt/dcx/cache/links.tar.gz" = .ok [3, 2, 1] ∧
    sampleEnv.tarGzReader [3, 2, 1] = some linkFirstStream ∧
    (linkFirstStream.entries.filter
        (fun e => e.Typeflag ≠ '5' && matchesBinaryName (Base e.Name) "gum")).map (·.data)
      = [[], [4, 5]] ∧
    (extractFromTarGz sampleEnv "/opt/dcx/cache/links.tar.gz" "gum" "/opt/dcx/bin/rg"
      sampleWorld).1 = none ∧
    (extractFromTarGz sampleEnv "/opt/dcx/cache/links.tar.gz" "gum" "/opt/dcx/bin/rg"
      sampleWorld).2.fs "/opt/dcx/bin/rg" = some ⟨.regular, 0o755, [4, 5]⟩ := by
  refine ⟨rfl, ?_⟩
  decide

/-- C10, evaluated where it fails.  The only member of the zip is a symbolic link named
`gum`, so no regular-file member matches; the zip extractor skips directories only, so
extraction succeeds and creates the destination, which did not exist, with the data of the
link as content. -/
theorem extractFromZip_extracts_symlink_member :
    ReadFile sampleWorld.fs "/opt/dcx/cache/links.zip" = .ok [7, 6] ∧
    sampleEnv.zipOpenReader [7, 6] = some linkOnlyFiles ∧
    (∀ f ∈ linkOnlyFiles, f.mode = FileType.regular →
      matchesBinaryName (Base f.Name) "gum" = false) ∧
    sampleWorld.fs "/opt/dcx/bin/rg" = none ∧
    (extractFromZip sampleEnv "/opt/dcx/cache/links.zip" "gum" "/opt/dcx/bin/rg"
      sampleWorld).1 = none ∧
    (extractFromZip sampleEnv "/opt/dcx/cache/links.zip" "gum" "/opt/dcx/bin/rg"
      sampleWorld).2.fs "/opt/dcx/bin/rg" = some ⟨.regular, 0o755, [20, 21]⟩ := by
  refine ⟨rfl, ?_⟩
  decide

/-- The first-match rule of the two extractors as the code has it, for an archive that is
not the destination.  Among the members the extractor considers (tar: type flag `TypeReg`;
zip: not a directory) with a matching base name, let the first in iteration order be given.
Then extraction touches no path but the destination, logs the open of the destination and
at most one write, which carries the bytes of that member, and when it succeeds the
destination content equals the bytes of that member. -/
theorem extract_writes_first_candidate (env : Env) (w : World)
    (archive binaryName dest : String) (data : Bytes)
    (_hdistinct : archive ≠ dest)
    (hread : ReadFile w.fs archive = .ok data) :
    (∀ stream e, env.tarGzReader data = some stream →
      stream.entries.find? (fun m => decide (m.Typeflag = TypeReg) &&
        matchesBinaryName (Base m.Name) binaryName) = some e →
      ((extractFromTarGz env archive binaryName dest w).1 = none →
        ∃ n, (extractFromTarGz env archive binaryName dest w).2.fs dest = some n ∧
          n.content = e.data) ∧
      (∀ p, p ≠ dest → (extractFromTarGz env archive binaryName dest w).2.fs p = w.fs p) ∧
      ((extractFromTarGz env archive binaryName dest w).2.trace = w.trace ++ [.openFile dest] ∨
        (extractFromTarGz env archive binaryName dest w).2.trace =
          w.trace ++ [.openFile dest, .write dest e.data])) ∧
    (∀ files f, env.zipOpenReader data = some files →
      files.find? (fun m => !m.IsDir && matchesBinaryName (Base m.Name) binaryName) = some f →
      ((extractFromZip env archive binaryName dest w).1 = none →
        ∃ n, (extractFromZip env archive binaryName dest w).2.fs dest = some n ∧
          n.content = f.data) ∧
      (∀ p, p ≠ dest → (extractFromZip env archive binaryName dest w).2.fs p = w.fs p) ∧
      ((extractFromZip env archive binaryName dest w).2.trace = w.trace ∨
        (extractFromZip env archive binaryName dest w).2.trace = w.trace ++ [.openFile dest] ∨
        (extractFromZip env archive binaryName dest w).2.trace =
          w.trace ++ [.openFile dest, .write dest f.data])) := by
  constructor
  · intro stream e hdec hfind
    have hfind' : stream.entries.find? (tarCandidate binaryName) = some e := hfind
    rw [extractFromTarGz_eq env w archive binaryName dest data stream hread hdec]
    simp only [hfind']
    refine ⟨?_, (writeMember_frame env dest e.data e.readErr w).1, ?_⟩
    · intro hok
      obtain ⟨p, hfs, -, -, -⟩ :=
        writeMember_ok env dest e.data e.readErr w _ (Prod.ext hok rfl)
      exact ⟨_, by rw [hfs, set_same], rfl⟩
    · rcases (writeMember_frame env dest e.data e.readErr w).2 with h | h
      · left; rw [h]; rfl
      · right; exact h
  · intro files f hdec hfind
    have hfind' : files.find? (zipCandidate binaryName) = some f := hfind
    rw [extractFromZip_eq env w archive binaryName dest data files hread hdec]
    simp only [hfind']
    by_cases hopen : f.openErr = true
    · simp [hopen]
    · simp only [hopen, Bool.false_eq_true, ↓reduceIte]
      refine ⟨?_, (writeMember_frame env dest f.data f.readErr w).1, ?_⟩
      · intro hok
        obtain ⟨p, hfs, -, -, -⟩ :=
          writeMember_ok env dest f.data f.readErr w _ (Prod.ext hok rfl)
        exact ⟨_, by rw [hfs, set_same], rfl⟩
      · rcases (writeMember_frame env dest f.data f.readErr w).2 with h | h
        · right; left; rw [h]; rfl
        · right; right; exact h

theorem extract_writes_first_candidate_witness :
    (extractFromZip sampleEnv "/opt/dcx/cache/yq.zip" "yq" "/opt/dcx/bin/yq" sampleWorld).1
      = none ∧
    ∃ n, (extractFromZip sampleEnv "/opt/dcx/cache/yq.zip" "yq" "/opt/dcx/bin/yq"
      sampleWorld).2.fs "/opt/dcx/bin/yq" = some n ∧ n.content = [10, 11] :=
  ⟨by decide,
    ((extract_writes_first_candidate sampleEnv sampleWorld "/opt/dcx/cache/yq.zip" "yq"
      "/opt/dcx/bin/yq" [6, 7] (by decide) rfl).2 yqFiles
      { Name := "yq_linux_amd64.exe", mode := .regular, openErr := false, data := [10, 11],
        readErr := false } rfl (by decide)).1 (by decide)⟩

/-- The no-match rule of the two extractors as the code has it.  For a readable archive in
which no member the extractor considers (tar: type flag `TypeReg`; zip: not a directory) has
a matching base name, extraction returns an error and the state it was given: the
destination is neither created nor truncated. -/
theorem extract_no_candidate (env : Env) (w : World) (archive binaryName dest : String)
    (data : Bytes) (hread : ReadFile w.fs archive = .ok data) :
    (∀ stream, env.tarGzReader data = some stream →
      (∀ e ∈ stream.entries, e.Typeflag = TypeReg →
        matchesBinaryName (Base e.Name) binaryName = false) →
      extractFromTarGz env archive binaryName dest w =
        (some (if stream.corrupt then Error.readError
          else Error.errorf ("binary " ++ binaryName ++ " not found in archive")), w)) ∧
    (∀ files, env.zipOpenReader data = some files →
      (∀ f ∈ files, f.IsDir = false → matchesBinaryName (Base f.Name) binaryName = false) →
      extractFromZip env archive binaryName dest w =
        (some (Error.errorf ("binary " ++ binaryName ++ " not found in archive")), w)) := by
  constructor
  · intro stream hdec hnone
    rw [extractFromTarGz_eq env w archive binaryName dest data stream hread hdec]
    have : stream.entries.find? (tarCandidate binaryName) = none := by
      rw [List.find?_eq_none]
      intro e he
      unfold tarCandidate
      by_cases h1 : e.Typeflag = TypeReg
      · simp [h1, hnone e he h1]
      · simp [h1]
    simp only [this]
  · intro files hdec hnone
    rw [extractFromZip_eq env w archive binaryName dest data files hread hdec]
    have : files.find? (zipCandidate binaryName) = none := by
      rw [List.find?_eq_none]
      intro f hf
      unfold zipCandidate
      cases h1 : f.IsDir
      · simp [hnone f hf h1]
      · simp
    simp only [this]

theorem extract_no_candidate_witness :
    extractFromTarGz sampleEnv "/opt/dcx/cache/gum.tar.gz" "yq" "/opt/dcx/bin/yq" sampleWorld =
      (some (Error.errorf ("binary " ++ "yq" ++ " not found in archive")), sampleWorld) :=
  (extract_no_candidate sampleEnv sampleWorld "/opt/dcx/cache/gum.tar.gz" "yq"
    "/opt/dcx/bin/yq" [1, 2, 3] rfl).1 gumStream rfl (by decide)

/-! ## The installer: download and extraction -/

/-- C6, evaluated where it fails.  A non-executable file (mode `0644`) sits at `binDir/gum`.
The first `toolsInstall "gum" false` succeeds and replaces the content, the mode stays
`0644`; the second call on the resulting disk succeeds too, but it downloads, writes and
removes again instead of being a no-op. -/
theorem toolsInstall_twice_over_nonexecutable :
    sampleConfig.Tools.lookup "gum" = some gumTool ∧
    sampleWorld.fs "/opt/dcx/bin/gum" = some ⟨.regular, 0o644, [9, 9]⟩ ∧
    (toolsInstall sampleEnv "gum" false sampleWorld).1 = none ∧
    (toolsInstall sampleEnv "gum" false sampleWorld).2.fs "/opt/dcx/bin/gum"
      = some ⟨.regular, 0o644, [4, 5]⟩ ∧
    (toolsInstall sampleEnv "gum" false
      ⟨(toolsInstall sampleEnv "gum" false sampleWorld).2.fs, []⟩).1 = none ∧
    (toolsInstall sampleEnv "gum" false
      ⟨(toolsInstall sampleEnv "gum" false sampleWorld).2.fs, []⟩).2.trace =
      [.mkdirAll "/opt/dcx/cache", .mkdirAll "/opt/dcx/bin",
       .httpGet "https://example.org/gum_0.14.5_linux_amd64.tar.gz",
       .create "/opt/dcx/cache/gum-0.14.5.tar.gz",
       .write "/opt/dcx/cache/gum-0.14.5.tar.gz" [1, 2, 3],
       .openFile "/opt/dcx/bin/gum", .write "/opt/dcx/bin/gum" [4, 5],
       .remove "/opt/dcx/cache/gum-0.14.5.tar.gz"] := by
  decide

/-- C7 fails as stated.  The tool `x.tar.gz` is registered with a URL for the platform and is
installed and executable.  Its version string makes the cache artifact path equal to the
destination path.  `toolsInstall "x.tar.gz" true` downloads, extracts and reports success,
and the final cleanup removes the destination: no file is left there. -/
theorem toolsInstall_force_removes_aliased_destination :
    loadToolsConfig aliasEnv aliasWorld.fs = .ok aliasConfig ∧
    aliasConfig.Tools.lookup "x.tar.gz" = some aliasTool ∧
    aliasTool.URLs.lookup (detectPlatform aliasEnv) = some "https://example.org/x.tar.gz" ∧
    isExecutable aliasWorld.fs (Join [getBinDir aliasEnv aliasWorld.fs, "x.tar.gz"]) = true ∧
    Join [getBinDir aliasEnv aliasWorld.fs, "x.tar.gz"] = "/opt/dcx/bin/x.tar.gz" ∧
    archivePathOf aliasEnv "x.tar.gz" aliasTool "https://example.org/x.tar.gz"
      = "/opt/dcx/bin/x.tar.gz" ∧
    (toolsInstall aliasEnv "x.tar.gz" true aliasWorld).1 = none ∧
    (toolsInstall aliasEnv "x.tar.gz" true aliasWorld).2.fs "/opt/dcx/bin/x.tar.gz" = none ∧
    (toolsInstall aliasEnv "x.tar.gz" true aliasWorld).2.trace =
      [.mkdirAll "/opt/dcx/cache", .mkdirAll "/opt/dcx/bin",
       .httpGet "https://example.org/x.tar.gz",
       .create "/opt/dcx/bin/x.tar.gz", .write "/opt/dcx/bin/x.tar.gz" [1, 2, 3],
       .openFile "/opt/dcx/bin/x.tar.gz", .write "/opt/dcx/bin/x.tar.gz" [4, 5],
       .remove "/opt/dcx/bin/x.tar.gz"] := by
  refine ⟨rfl, ?_⟩
  decide

/-! ## Helper lemmas: logs, download, removal -/

/-- The log after `writeMember` extends the log before. -/
theorem writeMember_trace_ext (env : Env) (dest : String) (data : Bytes) (re : Bool)
    (w : World) : ∃ t, (writeMember env dest data re w).2.trace = w.trace ++ t := by
  rcases (writeMember_frame env dest data re w).2 with h | h
  · exact ⟨[.openFile dest], by rw [h]; rfl⟩
  · exact ⟨_, h⟩

/-- The log after `extractFromTarGz` extends the log before. -/
theorem extractFromTarGz_trace_ext (env : Env) (archive binaryName dest : String) (w : World) :
    ∃ t, (extractFromTarGz env archive binaryName dest w).2.trace = w.trace ++ t := by
  cases hread : ReadFile w.fs archive with
  | error e => exact ⟨[], by simp [extractFromTarGz, hread]⟩
  | ok data =>
    cases hdec : env.tarGzReader data with
    | none => exact ⟨[], by simp [extractFromTarGz, hread, hdec]⟩
    | some stream =>
      rw [extractFromTarGz_eq env w archive binaryName dest data stream hread hdec]
      cases stream.entries.find? (tarCandidate binaryName) with
      | none => exact ⟨[], by simp⟩
      | some e => exact writeMember_trace_ext env dest e.data e.readErr w

/-- The log after `extractFromZip` extends the log before. -/
theorem extractFromZip_trace_ext (env : Env) (archive binaryName dest : String) (w : World) :
    ∃ t, (extractFromZip env archive binaryName dest w).2.trace = w.trace ++ t := by
  cases hread : ReadFile w.fs archive with
  | error e => exact ⟨[], by simp [extractFromZip, hread]⟩
  | ok data =>
    cases hdec : env.zipOpenReader data with
    | none => exact ⟨[], by simp [extractFromZip, hread, hdec]⟩
    | some files =>
      rw [extractFromZip_eq env w archive binaryName dest data files hread hdec]
      cases files.find? (zipCandidate binaryName) with
      | none => exact ⟨[], by simp⟩
      | some f =>
        by_cases hopen : f.openErr = true
        · exact ⟨[], by simp [hopen]⟩
        · simp only [hopen, Bool.false_eq_true, ↓reduceIte]
          exact writeMember_trace_ext env dest f.data f.readErr w

/-- The first new entry in the log after `downloadFile` is the HTTP request. -/
theorem downloadFile_trace_ext (env : Env) (url dest : String) (w : World) :
    ∃ t, (downloadFile env url dest w).2.trace = w.trace ++ Event.httpGet url :: t := by
  unfold downloadFile
  simp only [World.log]
  cases env.httpGet url with
  | none => exact ⟨[], rfl⟩
  | some resp =>
    simp only []
    split
    · exact ⟨[], rfl⟩
    · cases ho : openTrunc env dest 0o666 0o600 w.fs with
      | mk r fs1 =>
        cases r with
        | some e => exact ⟨[.create dest], by simp⟩
        | none =>
          simp only []
          split <;> exact ⟨[.create dest, .write dest resp.body], by simp⟩

/-- What a successful `downloadFile` leaves behind: the response had status 200 and its
body is the content of the (regular) file at the destination. -/
theorem downloadFile_ok (env : Env) (url dest : String) (w w1 : World)
    (h : downloadFile env url dest w = (none, w1)) :
    ∃ resp p, env.httpGet url = some resp ∧ resp.StatusCode = 200 ∧
      w1.fs = FS.set w.fs dest (some ⟨.regular, p, resp.body⟩) := by
  unfold downloadFile at h
  simp only [World.log] at h
  cases hget : env.httpGet url with
  | none => simp [hget] at h
  | some resp =>
    simp only [hget] at h
    split at h
    · simp at h
    · rename_i hstatus
      cases ho : openTrunc env dest 0o666 0o600 w.fs with
      | mk r fs1 =>
        cases r with
        | some e => simp [ho] at h
        | none =>
          obtain ⟨p, hfs, -, -⟩ := openTrunc_ok env dest _ _ _ _ ho
          simp only [ho] at h
          split at h
          · simp at h
          · simp only [Prod.mk.injEq, true_and] at h
            refine ⟨resp, p, rfl, by simpa using hstatus, ?_⟩
            rw [← h, hfs, writeBytes_fresh]

theorem readFile_set (fs : FS) (path : String) (n : Node) (data : Bytes)
    (h : ReadFile (FS.set fs path (some n)) path = .ok data) : data = n.content := by
  unfold ReadFile at h
  simp only [set_same] at h
  split at h
  · cases h
  · split at h
    · cases h
    · cases h; rfl

theorem remove_trace (path : String) (w : World) :
    (Remove path w).2.trace = w.trace ++ [.remove path] := by
  unfold Remove
  simp only [World.log]
  cases w.fs path with
  | none => rfl
  | some n =>
    simp only []
    split
    · rfl
    · split <;> rfl

theorem remove_other (path q : String) (w : World) (h : q ≠ path) :
    (Remove path w).2.fs q = w.fs q := by
  unfold Remove
  simp only [World.log]
  cases w.fs path with
  | none => rfl
  | some n =>
    simp only []
    split
    · rfl
    · split
      · simp [FS.set, h]
      · rfl

/-- A successful tar extraction wrote the first candidate of the decoded archive. -/
theorem extractFromTarGz_ok (env : Env) (archive binaryName dest : String) (w w1 : World)
    (h : extractFromTarGz env archive binaryName dest w = (none, w1)) :
    ∃ data stream e p, ReadFile w.fs archive = .ok data ∧ env.tarGzReader data = some stream ∧
      stream.entries.find? (tarCandidate binaryName) = some e ∧
      w1.fs = FS.set w.fs dest (some ⟨.regular, p, e.data⟩) := by
  cases hread : ReadFile w.fs archive with
  | error e => simp [extractFromTarGz, hread] at h
  | ok data =>
    cases hdec : env.tarGzReader data with
    | none => simp [extractFromTarGz, hread, hdec] at h
    | some stream =>
      rw [extractFromTarGz_eq env w archive binaryName dest data stream hread hdec] at h
      cases hfind : stream.entries.find? (tarCandidate binaryName) with
      | none => simp [hfind] at h
      | some e =>
        simp only [hfind] at h
        obtain ⟨p, hfs, -, -, -⟩ := writeMember_ok env dest e.data e.readErr w w1 h
        exact ⟨data, stream, e, p, rfl, hdec, hfind, hfs⟩

/-- A successful zip extraction wrote the first candidate of the decoded archive. -/
theorem extractFromZip_ok (env : Env) (archive binaryName dest : String) (w w1 : World)
    (h : extractFromZip env archive binaryName dest w = (none, w1)) :
    ∃ data files f p, ReadFile w.fs archive = .ok data ∧ env.zipOpenReader data = some files ∧
      files.find? (zipCandidate binaryName) = some f ∧
      w1.fs = FS.set w.fs dest (some ⟨.regular, p, f.data⟩) := by
  cases hread : ReadFile w.fs archive with
  | error e => simp [extractFromZip, hread] at h
  | ok data =>
    cases hdec : env.zipOpenReader data with
    | none => simp [extractFromZip, hread, hdec] at h
    | some files =>
      rw [extractFromZip_eq env w archive binaryName dest data files hread hdec] at h
      cases hfind : files.find? (zipCandidate binaryName) with
      | none => simp [hfind] at h
      | some f =>
        simp only [hfind] at h
        by_cases hopen : f.openErr = true
        · simp [hopen] at h
        · simp only [hopen, Bool.false_eq_true, ↓reduceIte] at h
          obtain ⟨p, hfs, -, -, -⟩ := writeMember_ok env dest f.data f.readErr w w1 h
          exact ⟨data, files, f, p, rfl, hdec, hfind, hfs⟩

/-- C7, amended.  For a registered tool with a URL for the current platform, whatever is at
`binDir/name` (an executable file included), `toolsInstall name true` creates the two
directories and then requests the URL; and, provided the cache artifact path is not the
destination path, when it returns success the response had status 200 and the destination
is a regular file whose content is exactly the bytes of the member matched in the
downloaded archive. -/
theorem toolsInstall_force_overwrites (env : Env) (w : World) (config : ToolsConfig)
    (name : String) (tool : ToolConfig) (template : String)
    (hload : loadToolsConfig env w.fs = .ok config)
    (htool : config.Tools.lookup name = some tool)
    (hurl : tool.URLs.lookup (detectPlatform env) = some template)
    (hdistinct : archivePathOf env name tool template ≠ Join [getBinDir env w.fs, name]) :
    (∃ t, (toolsInstall env name true w).2.trace =
      w.trace ++ [.mkdirAll (getCacheDir env), .mkdirAll (getBinDir env w.fs),
        .httpGet (installURL tool template)] ++ t) ∧
    ((toolsInstall env name true w).1 = none →
      ∃ resp member, env.httpGet (installURL tool template) = some resp ∧
        resp.StatusCode = 200 ∧
        matchedMember env (archiveExt tool template) name resp.body = some member ∧
        ∃ n, (toolsInstall env name true w).2.fs (Join [getBinDir env w.fs, name]) = some n ∧
          n.type = FileType.regular ∧ n.content = member) := by
  have hdest : Join [getBinDir env w.fs, name] ≠ archivePathOf env name tool template :=
    fun h => hdistinct h.symm
  -- the state in which the download starts
  obtain ⟨w2, hw2, hw2t⟩ : ∃ w2 : World,
      w2 = (MkdirAll env (getBinDir env w.fs) 0o755 (MkdirAll env (getCacheDir env) 0o755 w).2).2 ∧
      w2.trace = w.trace ++ [.mkdirAll (getCacheDir env), .mkdirAll (getBinDir env w.fs)] :=
    ⟨_, rfl, by simp [MkdirAll]⟩
  have hstep : toolsInstall env name true w =
      match downloadFile env (installURL tool template) (archivePathOf env name tool template) w2 with
      | (some err, w3) => (some (.wrapped "download failed" err), w3)
      | (none, w3) =>
        if archiveExt tool template = ".zip" then
          match extractFromZip env (archivePathOf env name tool template) name
              (Join [getBinDir env w.fs, name]) w3 with
          | (some err, w4) =>
            (some (.wrapped "extraction failed" err),
              (Remove (archivePathOf env name tool template) w4).2)
          | (none, w4) => (none, (Remove (archivePathOf env name tool template) w4).2)
        else
          match extractFromTarGz env (archivePathOf env name tool template) name
              (Join [getBinDir env w.fs, name]) w3 with
          | (some err, w4) =>
            (some (.wrapped "extraction failed" err),
              (Remove (archivePathOf env name tool template) w4).2)
          | (none, w4) => (none, (Remove (archivePathOf env name tool template) w4).2) := by
    unfold toolsInstall
    simp only [hload, htool, hurl, Bool.not_true, Bool.false_and, Bool.false_eq_true,
      ↓reduceIte, hw2]
    rfl
  rw [hstep]
  obtain ⟨td, htd⟩ := downloadFile_trace_ext env (installURL tool template)
    (archivePathOf env name tool template) w2
  cases hdl : downloadFile env (installURL tool template)
      (archivePathOf env name tool template) w2 with
  | mk r w3 =>
    rw [hdl] at htd
    simp only at htd
    cases r with
    | some err =>
      simp only []
      exact ⟨⟨td, by rw [htd, hw2t]; simp⟩, by simp⟩
    | none =>
      obtain ⟨resp, p, hget, hstatus, hfs3⟩ := downloadFile_ok env _ _ w2 w3 hdl
      simp only []
      by_cases hext : archiveExt tool template = ".zip"
      · simp only [hext, ↓reduceIte]
        obtain ⟨tx, htx⟩ := extractFromZip_trace_ext env (archivePathOf env name tool template)
          name (Join [getBinDir env w.fs, name]) w3
        cases hex : extractFromZip env (archivePathOf env name tool template) name
            (Join [getBinDir env w.fs, name]) w3 with
        | mk rx w4 =>
          rw [hex] at htx
          simp only at htx
          cases rx with
          | some err =>
            simp only []
            exact ⟨⟨td ++ tx ++ [.remove (archivePathOf env name tool template)], by
              rw [remove_trace, htx, htd, hw2t]; simp⟩, by simp⟩
          | none =>
            simp only []
            refine ⟨⟨td ++ tx ++ [.remove (archivePathOf env name tool template)], by
              rw [remove_trace, htx, htd, hw2t]; simp⟩, ?_⟩
            intro _
            obtain ⟨data, files, f, q, hread, hdec, hfind, hfs4⟩ :=
              extractFromZip_ok env _ _ _ w3 w4 hex
            rw [hfs3] at hread
            have hdata := readFile_set _ _ _ _ hread
            simp only at hdata
            subst hdata
            refine ⟨resp, f.data, hget, hstatus, ?_, ⟨.regular, q, f.data⟩, ?_, rfl, rfl⟩
            · simp [matchedMember, hext, hdec, hfind]
            · rw [remove_other _ _ _ hdest, hfs4, set_same]
      · simp only [hext, ↓reduceIte]
        obtain ⟨tx, htx⟩ := extractFromTarGz_trace_ext env
          (archivePathOf env name tool template) name (Join [getBinDir env w.fs, name]) w3
        cases hex : extractFromTarGz env (archivePathOf env name tool template) name
            (Join [getBinDir env w.fs, name]) w3 with
        | mk rx w4 =>
          rw [hex] at htx
          simp only at htx
          cases rx with
          | some err =>
            simp only []
            exact ⟨⟨td ++ tx ++ [.remove (archivePathOf env name tool template)], by
              rw [remove_trace, htx, htd, hw2t]; simp⟩, by simp⟩
          | none =>
            simp only []
            refine ⟨⟨td ++ tx ++ [.remove (archivePathOf env name tool template)], by
              rw [remove_trace, htx, htd, hw2t]; simp⟩, ?_⟩
            intro _
            obtain ⟨data, stream, e, q, hread, hdec, hfind, hfs4⟩ :=
              extractFromTarGz_ok env _ _ _ w3 w4 hex
            rw [hfs3] at hread
            have hdata := readFile_set _ _ _ _ hread
            simp only at hdata
            subst hdata
            refine ⟨resp, e.data, hget, hstatus, ?_, ⟨.regular, q, e.data⟩, ?_, rfl, rfl⟩
            · simp [matchedMember, hext, hdec, hfind]
            · rw [remove_other _ _ _ hdest, hfs4, set_same]

theorem toolsInstall_force_overwrites_witness :
    isExecutable sampleWorld.fs "/opt/dcx/bin/yq" = true ∧
    (toolsInstall sampleEnv "yq" true sampleWorld).1 = none ∧
    ∃ resp member, sampleEnv.httpGet "https://example.org/v4.44.1/yq_linux_amd64.zip" = some resp ∧
      resp.StatusCode = 200 ∧
      matchedMember sampleEnv ".zip" "yq" resp.body = some member ∧
      ∃ n, (toolsInstall sampleEnv "yq" true sampleWorld).2.fs "/opt/dcx/bin/yq" = some n ∧
        n.type = FileType.regular ∧ n.content = member :=
  ⟨by decide, by decide,
    (toolsInstall_force_overwrites sampleEnv sampleWorld sampleConfig "yq" yqTool
      "https://example.org/v\x7bversion\x7d/yq_linux_amd64.zip" rfl rfl rfl (by decide)).2
      (by decide)⟩

/-! ## Member matching without the special case -/

/-- C19. The `yq` branch of `matchesBinaryName` never changes the result: for every file name
and every binary name the function equals the two-rule matcher (equality, or the binary
name followed by `_` or `-` as a beginning). -/
theorem matchesBinaryName_eq_twoRules (filename binaryName : String) :
    matchesBinaryName filename binaryName = matchesTwoRules filename binaryName := by
  unfold matchesBinaryName matchesTwoRules
  by_cases h0 : filename = binaryName
  · simp [h0]
  · by_cases hyq : binaryName = "yq"
    · subst hyq
      have : ("yq" ++ "_" : String) = "yq_" := by decide
      rw [this]
      cases h1 : HasPrefix filename "yq_" <;> cases h2 : HasPrefix filename ("yq" ++ "-") <;>
        simp [h0]
    · cases h1 : HasPrefix filename (binaryName ++ "_") <;>
        cases h2 : HasPrefix filename (binaryName ++ "-") <;> simp [h0, hyq]

/-! ## Dot-path access -/

/-- After `m[key] = v` the lookup of `key` yields `v`. -/
theorem lookup_mapSet (key : String) (v : Value) :
    ∀ m : List (String × Value), (mapSet m key v).lookup key = some v
  | [] => by simp [mapSet, List.lookup]
  | (k, old) :: rest => by
    unfold mapSet
    by_cases h : k = key
    · simp [h, List.lookup]
    · have hne : (key == k) = false := by simpa using fun h' => h h'.symm
      simp only [h, ↓reduceIte, List.lookup, hne]
      exact lookup_mapSet key v rest

/-- Splitting never yields an empty list of parts. -/
theorem splitChar_ne_nil (sep : Char) : ∀ l : List Char, splitChar sep l ≠ []
  | [] => by simp [splitChar]
  | c :: cs => by
    unfold splitChar
    split
    · simp
    · split <;> simp

theorem split_ne_nil (s : String) (sep : Char) : Split s sep ≠ [] := by
  unfold Split
  simpa using splitChar_ne_nil sep s.data

theorem read_set_same (h : Heap) (m : Addr) (x : List (String × Value)) (hm : m < h.length) :
    Heap.read (h.set m x) m = x := by
  simp [Heap.read, List.getD, hm]

theorem read_set_other (h : Heap) (m b : Addr) (x : List (String × Value)) (hb : b ≠ m) :
    Heap.read (h.set m x) b = Heap.read h b := by
  simp [Heap.read, List.getD, List.getElem?_set_ne (Ne.symm hb)]

theorem read_append_lt (h l : Heap) (b : Addr) (hb : b < h.length) :
    Heap.read (h ++ l) b = Heap.read h b := by
  simp [Heap.read, List.getD, List.getElem?_append_left hb]

theorem read_append_fresh (h : Heap) : Heap.read (h ++ [[]]) h.length = [] := by
  simp [Heap.read, List.getD]

/-- A newly made map object starts a simple walk. -/
theorem simpleWalk_fresh (h : Heap) (a : Addr) (seen : List Addr) (ha : a < h.length)
    (hseen : a ∉ seen) (hempty : Heap.read h a = []) :
    ∀ parts : List String, simpleWalk h parts a seen = true
  | [] => rfl
  | [_] => by simp [simpleWalk, ha, hseen]
  | _ :: _ :: _ => by simp [simpleWalk, ha, hseen, hempty]

/-- The round trip along a simple walk, with what the call leaves untouched: the maps
entered before (`seen`) are as they were. -/
theorem setParts_getParts (value : String) :
    ∀ (parts : List String) (h : Heap) (m : Addr) (seen : List Addr), parts ≠ [] →
      simpleWalk h parts m seen = true → (∀ b ∈ seen, b < h.length) →
      ∃ h1, setParts value parts h (some m) = some h1 ∧
        getParts parts h1 (.map (some m)) = .str value ∧ h.length ≤ h1.length ∧
        ∀ b ∈ seen, Heap.read h1 b = Heap.read h b
  | [], _, _, _, hne, _, _ => absurd rfl hne
  | [last], h, m, seen, _, hwalk, _ => by
    simp only [simpleWalk, Bool.and_eq_true, decide_eq_true_eq, Bool.not_eq_true',
      List.contains_eq_any_beq, List.any_eq_false, beq_iff_eq] at hwalk
    obtain ⟨hm, hns⟩ := hwalk
    refine ⟨_, rfl, ?_, by simp, ?_⟩
    · simp [getParts, read_set_same h m _ hm, lookup_mapSet]
    · intro b hb
      exact read_set_other h m b _ (fun he => hns b hb he.symm)
  | part :: next :: rest, h, m, seen, _, hwalk, hseen => by
    have hm : m < h.length := by
      simp only [simpleWalk, Bool.and_eq_true, decide_eq_true_eq] at hwalk
      exact hwalk.1.1
    have hns : ∀ b ∈ seen, b ≠ m := by
      simp only [simpleWalk, Bool.and_eq_true, Bool.not_eq_true', List.contains_eq_any_beq,
        List.any_eq_false, beq_iff_eq] at hwalk
      intro b hb he
      exact hwalk.1.2 b hb he.symm
    have hseen1 : ∀ b ∈ m :: seen, b < h.length := by
      intro b hb
      rcases List.mem_cons.1 hb with rfl | hb
      · exact hm
      · exact hseen b hb
    -- the branch that makes a new map object and enters it
    have fresh : setParts value (part :: next :: rest) h (some m) =
          setParts value (next :: rest)
            (h.set m (mapSet (h.read m) part (.map (some h.length))) ++ [[]]) (some h.length) →
        ∃ h1, setParts value (part :: next :: rest) h (some m) = some h1 ∧
          getParts (part :: next :: rest) h1 (.map (some m)) = .str value ∧
          h.length ≤ h1.length ∧ ∀ b ∈ seen, Heap.read h1 b = Heap.read h b := by
      intro hstep
      have hlen : (h.set m (mapSet (h.read m) part (.map (some h.length))) ++ [[]]).length
          = h.length + 1 := by simp
      have hnew : h.length ∉ m :: seen := by
        intro hmem
        exact absurd (hseen1 _ hmem) (Nat.lt_irrefl _)
      have hread : Heap.read (h.set m (mapSet (h.read m) part (.map (some h.length))) ++ [[]])
          h.length = [] := by
        have := read_append_fresh (h.set m (mapSet (h.read m) part (.map (some h.length))))
        simpa using this
      obtain ⟨h1, hset, hget, hle, hframe⟩ :=
        setParts_getParts value (next :: rest)
          (h.set m (mapSet (h.read m) part (.map (some h.length))) ++ [[]]) h.length
          (m :: seen) (by simp)
          (simpleWalk_fresh _ _ _ (by rw [hlen]; exact Nat.lt_succ_self _) hnew hread _)
          (fun b hb => by rw [hlen]; exact Nat.lt_succ_of_lt (hseen1 b hb))
      have hreadm : Heap.read h1 m = mapSet (h.read m) part (.map (some h.length)) := by
        rw [hframe m (List.mem_cons_self _ _),
          read_append_lt _ _ _ (by simpa using hm), read_set_same h m _ hm]
      refine ⟨h1, by rw [hstep, hset], ?_, by omega, ?_⟩
      · simp only [getParts, hreadm, lookup_mapSet, Option.getD_some]
        exact hget
      · intro b hb
        rw [hframe b (List.mem_cons_of_mem _ hb),
          read_append_lt _ _ _ (by simpa using hseen b hb), read_set_other h m b _ (hns b hb)]
    cases hl : (h.read m).lookup part with
    | none => exact fresh (by simp [setParts, hl])
    | some v =>
      cases v with
      | null => exact fresh (by simp [setParts, hl])
      | str s => exact fresh (by simp [setParts, hl])
      | other r => exact fresh (by simp [setParts, hl])
      | map ref =>
        cases ref with
        | none => simp [simpleWalk, hl] at hwalk
        | some a =>
          have hwalk1 : simpleWalk h (next :: rest) a (m :: seen) = true := by
            simp only [simpleWalk, hl, Bool.and_eq_true] at hwalk
            exact hwalk.2
          obtain ⟨h1, hset, hget, hle, hframe⟩ :=
            setParts_getParts value (next :: rest) h a (m :: seen) (by simp) hwalk1 hseen1
          refine ⟨h1, by simp [setParts, hl, hset], ?_, hle, ?_⟩
          · simp only [getParts, hframe m (List.mem_cons_self _ _), hl, Option.getD_some]
            exact hget
          · intro b hb
            exact hframe b (List.mem_cons_of_mem _ hb)

/-- C20, amended.  Dot-path round trip: for every heap of maps and every map of it, whatever
the maps hold (non-map values at intermediate segments included), every key and every
string value, provided the walk along the key enters no map twice and meets no typed
nil map, `setNestedValue` returns without a panic and looking the key up afterwards
returns the value. -/
theorem setNestedValue_getNestedValue (h : Heap) (m : Addr) (key value : String)
    (hwalk : simpleWalk h (Split key '.') m [] = true) :
    ∃ h1, setNestedValue h (some m) key value = some h1 ∧
      getNestedValue h1 (some m) key = .str value := by
  obtain ⟨h1, hset, hget, -, -⟩ :=
    setParts_getParts value (Split key '.') h m [] (split_ne_nil key '.') hwalk
      (fun b hb => absurd hb (List.not_mem_nil b))
  exact ⟨h1, hset, hget⟩

theorem setNestedValue_getNestedValue_witness :
    treeHeap.read 0 = [("log", .str "info"), ("database", .map (some 1))] ∧
    (∃ h1, setNestedValue treeHeap (some 0) "log.level" "debug" = some h1 ∧
      getNestedValue h1 (some 0) "log.level" = .str "debug") ∧
    (∃ h1, setNestedValue treeHeap (some 0) "database.host" "db" = some h1 ∧
      getNestedValue h1 (some 0) "database.host" = .str "db") :=
  ⟨by decide,
    setNestedValue_getNestedValue treeHeap 0 "log.level" "debug" (by decide),
    setNestedValue_getNestedValue treeHeap 0 "database.host" "db" (by decide)⟩

/-- C20 fails as stated.  On a map that holds a typed nil map under `a`, `setNestedValue`
with the key `a.b` panics, as it does on a nil map.  On a map that holds itself under `a`,
`setNestedValue` with the key `a.a` returns, and the lookup of `a.a` afterwards yields
`nil`, not the value. -/
theorem setNestedValue_nil_and_cyclic :
    setNestedValue nilHeap (some 0) "a.b" "v" = none ∧
    setNestedValue [] none "a" "v" = none ∧
    setNestedValue selfHeap (some 0) "a.a" "v" = some [[("a", .str "v")]] ∧
    getNestedValue [[("a", .str "v")]] (some 0) "a.a" = .null := by
  decide

/-! ## Installing all tools -/

/-- The loop of `toolsInstallAll` calls `toolsInstall` for each name in turn, and the counter
grows by the number of calls that returned an error. -/
theorem installAllLoop_spec (env : Env) (force : Bool) :
    ∀ (names : List String) (calls : List (String × Option Error)) (failed : Nat) (w : World),
      (installAllLoop env force names calls failed w).1.map Prod.fst
          = calls.map Prod.fst ++ names ∧
      (installAllLoop env force names calls failed w).2.1
          + (calls.filter fun c => c.2.isSome).length
        = failed +
          ((installAllLoop env force names calls failed w).1.filter fun c => c.2.isSome).length
  | [], calls, failed, w => by simp [installAllLoop, Nat.add_comm]
  | name :: rest, calls, failed, w => by
    unfold installAllLoop
    cases h : toolsInstall env name force w with
    | mk r w1 =>
      cases r with
      | some err =>
        obtain ⟨h1, h2⟩ :=
          installAllLoop_spec env force rest (calls ++ [(name, some err)]) (failed + 1) w1
        simp only []
        refine ⟨by rw [h1]; simp, ?_⟩
        simp only [List.filter_append, List.length_append] at h2
        simp only [List.filter, Option.isSome_some, List.length_cons, List.length_nil] at h2
        omega
      | none =>
        obtain ⟨h1, h2⟩ :=
          installAllLoop_spec env force rest (calls ++ [(name, none)]) failed w1
        simp only []
        refine ⟨by rw [h1]; simp, ?_⟩
        simp only [List.filter_append, List.length_append] at h2
        simp only [List.filter, Option.isSome_none, List.length_nil] at h2
        omega

/-- The loop of `toolsInstallAll` appends the result of every call to the record, adds the
number of errors to the counter and ends in the state the last call left. -/
theorem installAllLoop_eq (env : Env) (force : Bool) :
    ∀ (names : List String) (calls : List (String × Option Error)) (failed : Nat) (w : World),
      installAllLoop env force names calls failed w =
        (calls ++ installResults env force names w,
          failed + ((installResults env force names w).filter fun c => c.2.isSome).length,
          stateAfter env force names w)
  | [], calls, failed, w => by simp [installAllLoop, installResults, stateAfter]
  | name :: rest, calls, failed, w => by
    unfold installAllLoop
    cases h : toolsInstall env name force w with
    | mk r w1 =>
      cases r with
      | some err =>
        simp only []
        rw [installAllLoop_eq env force rest _ (failed + 1) w1]
        simp only [installResults, stateAfter, h, List.filter, Option.isSome_some,
          List.length_cons, List.append_assoc, List.singleton_append, List.foldl_cons,
          Prod.mk.injEq, true_and, and_true]
        omega
      | none =>
        simp only []
        rw [installAllLoop_eq env force rest _ failed w1]
        simp [installResults, stateAfter, h, List.filter]

/-- The entry of `installResults` for a name is the result of `toolsInstall` in the state
left by the calls for the names before it. -/
theorem installResults_at (env : Env) (force : Bool) (name : String) (post : List String) :
    ∀ (pre : List String) (w : World),
      (installResults env force (pre ++ name :: post) w)[pre.length]? =
        some (name, (toolsInstall env name force (stateAfter env force pre w)).1)
  | [], w => by simp [installResults, stateAfter]
  | p :: pre, w => by
    have ih := installResults_at env force name post pre (toolsInstall env p force w).2
    show (installResults env force (p :: (pre ++ name :: post)) w)[pre.length + 1]? = _
    simp only [installResults, List.getElem?_cons_succ]
    rw [ih]
    simp [stateAfter]

/-- C11. When the registry loads (its keys being distinct, as in a Go map), `toolsInstallAll`
calls `toolsInstall` for every registered tool, exactly once each and whatever the earlier
calls returned: the call for a tool starts in the state left by the calls for the tools
before it, its recorded result is what `toolsInstall` returns there, and the run ends in
the state left by the last call.  The failure count it reports is the number of those
calls that returned an error, and it exits with code 1 exactly when that count is not
zero. -/
theorem toolsInstallAll_counts (env : Env) (w : World) (config : ToolsConfig) (force : Bool)
    (hload : loadToolsConfig env w.fs = .ok config)
    (hkeys : (config.Tools.map Prod.fst).Nodup) :
    (toolsInstallAll env force w).calls.map Prod.fst = config.Tools.map Prod.fst ∧
    (∀ name ∈ config.Tools.map Prod.fst,
      ((toolsInstallAll env force w).calls.map Prod.fst).count name = 1) ∧
    (∀ pre name post, config.Tools.map Prod.fst = pre ++ name :: post →
      (toolsInstallAll env force w).calls[pre.length]? =
        some (name, (toolsInstall env name force (stateAfter env force pre w)).1)) ∧
    (toolsInstallAll env force w).world =
      stateAfter env force (config.Tools.map Prod.fst) w ∧
    (toolsInstallAll env force w).failed =
      ((toolsInstallAll env force w).calls.filter fun c => c.2.isSome).length ∧
    (toolsInstallAll env force w).exitCode =
      if (toolsInstallAll env force w).failed = 0 then 0 else 1 := by
  obtain ⟨h1, h2⟩ := installAllLoop_spec env force (config.Tools.map Prod.fst) [] 0 w
  have hloop := installAllLoop_eq env force (config.Tools.map Prod.fst) [] 0 w
  have hcalls : (toolsInstallAll env force w).calls.map Prod.fst = config.Tools.map Prod.fst := by
    simp only [toolsInstallAll, hload]
    simpa using h1
  refine ⟨hcalls, ?_, ?_, ?_, ?_, ?_⟩
  · intro name hname
    rw [hcalls]
    exact List.count_eq_one_of_mem hkeys hname
  · intro pre name post hsplit
    simp only [toolsInstallAll, hload, hloop, List.nil_append]
    rw [hsplit]
    exact installResults_at env force name post pre w
  · simp only [toolsInstallAll, hload, hloop]
  · simp only [toolsInstallAll, hload]
    simpa using h2
  · simp only [toolsInstallAll, hload]

theorem toolsInstallAll_counts_witness :
    (toolsInstallAll sampleEnv true sampleWorld).calls =
      [("sg", some (.errorf "no download URL for sg on platform linux-amd64")),
       ("gum", none), ("yq", none)] ∧
    (toolsInstallAll sampleEnv true sampleWorld).failed = 1 ∧
    (toolsInstallAll sampleEnv true sampleWorld).exitCode = 1 ∧
    (toolsInstallAll sampleEnv true sampleWorld).world.fs "/opt/dcx/bin/gum"
      = some ⟨.regular, 0o644, [4, 5]⟩ ∧
    (toolsInstallAll sampleEnv true sampleWorld).world.fs "/opt/dcx/bin/yq"
      = some ⟨.regular, 0o755, [10, 11]⟩ ∧
    (toolsInstallAll sampleEnv true sampleWorld).world.fs
      = (stateAfter sampleEnv true ["sg", "gum", "yq"] sampleWorld).fs :=
  have h := toolsInstallAll_counts sampleEnv sampleWorld sampleConfig true rfl (by decide)
  ⟨by decide, by decide, by decide, by decide, by decide, congrArg World.fs h.2.2.2.1⟩

/-! ## The path resolver -/

/-- A path is absolute exactly when its first character is a slash. -/
theorem isAbs_iff (path : String) : IsAbs path = true ↔ ∃ t, path.data = '/' :: t := by
  unfold IsAbs HasPrefix
  rw [List.isPrefixOf_iff_prefix]
  constructor
  · rintro ⟨t, ht⟩
    exact ⟨t, by simpa using ht.symm⟩
  · rintro ⟨t, ht⟩
    exact ⟨t, by simpa using ht.symm⟩

theorem cleanChars_rooted (t : List Char) : ∃ u, cleanChars ('/' :: t) = '/' :: u := by
  unfold cleanChars
  simp

/-- Joining onto an absolute first element gives an absolute path. -/
theorem join_abs (first : String) (rest : List String) (h : IsAbs first = true) :
    IsAbs (Join (first :: rest)) = true := by
  obtain ⟨t, ht⟩ := (isAbs_iff first).1 h
  have hne : first ≠ "" := by
    intro he
    rw [he] at ht
    simp at ht
  have hj : ∃ u, joinElems (first :: rest) = '/' :: u := by
    cases rest with
    | nil => exact ⟨t, by simp [joinElems, ht]⟩
    | cons y ys => exact ⟨t ++ '/' :: joinElems (y :: ys), by
        simp only [joinElems, ht, List.cons_append]⟩
  obtain ⟨u, hu⟩ := hj
  obtain ⟨v, hv⟩ := cleanChars_rooted u
  rw [isAbs_iff]
  refine ⟨v, ?_⟩
  unfold Join
  simp only [List.dropWhile, hne, decide_False, hu, hv]

theorem dropWhile_keeps_slash (xs : List Char) :
    ∃ ys, (xs ++ ['/']).dropWhile (fun c => decide (c ≠ '/')) = ys ++ ['/'] := by
  induction xs with
  | nil => exact ⟨[], by simp [List.dropWhile]⟩
  | cons x xs ih =>
    by_cases hx : x = '/'
    · exact ⟨x :: xs, by simp [List.dropWhile, hx]⟩
    · obtain ⟨ys, hys⟩ := ih
      refine ⟨ys, ?_⟩
      rw [List.cons_append, List.dropWhile_cons]
      simp only [ne_eq, hx, not_false_eq_true, decide_True, ↓reduceIte]
      exact hys

/-- The directory of an absolute path is absolute. -/
theorem dir_abs (path : String) (h : IsAbs path = true) : IsAbs (Dir path) = true := by
  obtain ⟨t, ht⟩ := (isAbs_iff path).1 h
  obtain ⟨ys, hys⟩ := dropWhile_keeps_slash t.reverse
  obtain ⟨u, hu⟩ := cleanChars_rooted ys.reverse
  rw [isAbs_iff]
  refine ⟨u, ?_⟩
  unfold Dir
  simp only [ht, List.reverse_cons, hys, List.reverse_append, List.reverse_singleton,
    List.singleton_append, List.reverse_nil, List.nil_append, hu]

/-- C14, amended.  The four path accessors are total functions, so they never fail.  Each
returns an absolute path provided the override variable, when set, holds an absolute path,
the resolved path of the executable, when known, is absolute (as `os.Executable` reports
it), and the home directory is absolute. -/
theorem accessors_absolute (env : Env) (fs : FS)
    (hoverride : env.Getenv "DC_HOME" ≠ "" → IsAbs (env.Getenv "DC_HOME") = true)
    (hexe : ∀ exe, env.executable = some exe → IsAbs exe = true)
    (hhome : IsAbs env.userHomeDir = true) :
    IsAbs (getDCHome env) = true ∧ IsAbs (getBinDir env fs) = true ∧
      IsAbs (getEtcDir env fs) = true ∧ IsAbs (getCacheDir env) = true := by
  have hroot : IsAbs (getDCHome env) = true := by
    unfold getDCHome
    by_cases h : env.Getenv "DC_HOME" = ""
    · simp only [h, ne_eq, not_true_eq_false, ↓reduceIte]
      cases hx : env.executable with
      | none => exact join_abs _ _ hhome
      | some exe =>
        have habs := hexe exe hx
        simp only []
        split
        · exact dir_abs _ (dir_abs _ habs)
        · split
          · exact dir_abs _ (dir_abs _ (dir_abs _ habs))
          · exact join_abs _ _ hhome
    · simp only [ne_eq, h, not_false_eq_true, ↓reduceIte]
      exact hoverride h
  refine ⟨hroot, ?_, ?_, join_abs _ _ hroot⟩
  · unfold getBinDir
    simp only []
    split
    · exact join_abs _ _ hroot
    · split <;> exact join_abs _ _ hroot
  · unfold getEtcDir
    simp only []
    split
    · exact join_abs _ _ hroot
    · split <;> exact join_abs _ _ hroot

theorem accessors_absolute_witness :
    getDCHome sampleEnv = "/opt/dcx" ∧
    IsAbs (getDCHome sampleEnv) = true ∧ IsAbs (getBinDir sampleEnv sampleFS) = true ∧
      IsAbs (getEtcDir sampleEnv sampleFS) = true ∧ IsAbs (getCacheDir sampleEnv) = true :=
  ⟨by decide,
    accessors_absolute sampleEnv sampleFS (fun _ => by decide)
      (fun exe h => by simp [sampleEnv] at h) (by decide)⟩

/-- C12, evaluated where it fails.  No override is set and the executable is
`/home/dev/dcx/tool`: its directory is not named `bin` and is not a `cmd/dcx` (the parent
is `dev`), so the root should be `/home/dev/.local/share/dcx`; `getDCHome` tests the name
`dcx` only and returns `/home`. -/
theorem getDCHome_dcx_directory :
    dcxDirEnv.Getenv "DC_HOME" = "" ∧
    dcxDirEnv.executable = some "/home/dev/dcx/tool" ∧
    Base (Dir "/home/dev/dcx/tool") = "dcx" ∧
    Base (Dir (Dir "/home/dev/dcx/tool")) = "dev" ∧
    getDCHome dcxDirEnv = "/home" ∧
    Join [dcxDirEnv.userHomeDir, ".local", "share", "dcx"] = "/home/dev/.local/share/dcx" := by
  decide

/-- The priority chain of `getDCHome` as the code has it.  The root is the variable the code
reads, verbatim, when it is non-empty; otherwise, with the resolved executable path known,
the grandparent of the executable when its directory is named `bin`, and the directory two
levels above that directory when it is named `dcx` (whatever its parent); otherwise
`<user-home>/.local/share/dcx`. -/
theorem getDCHome_priority (env : Env) :
    (env.Getenv "DC_HOME" ≠ "" → getDCHome env = env.Getenv "DC_HOME") ∧
    (env.Getenv "DC_HOME" = "" → ∀ exe, env.executable = some exe →
      Base (Dir exe) = "bin" → getDCHome env = Dir (Dir exe)) ∧
    (env.Getenv "DC_HOME" = "" → ∀ exe, env.executable = some exe →
      Base (Dir exe) = "dcx" → getDCHome env = Dir (Dir (Dir exe))) ∧
    (env.Getenv "DC_HOME" = "" →
      (env.executable = none ∨
        ∃ exe, env.executable = some exe ∧ Base (Dir exe) ≠ "bin" ∧ Base (Dir exe) ≠ "dcx") →
      getDCHome env = Join [env.userHomeDir, ".local", "share", "dcx"]) := by
  refine ⟨?_, ?_, ?_, ?_⟩
  · intro h
    simp [getDCHome, h]
  · intro h exe hexe hbin
    simp [getDCHome, h, hexe, hbin]
  · intro h exe hexe hdcx
    have hnot : ¬ Base (Dir exe) = "bin" := by
      rw [hdcx]; decide
    simp [getDCHome, h, hexe, hdcx, hnot]
  · intro h hrest
    rcases hrest with hnone | ⟨exe, hexe, hbin, hdcx⟩
    · simp [getDCHome, h, hnone]
    · simp [getDCHome, h, hexe, hbin, hdcx]

/-- C13 fails as stated.  The marker `dcx-linux-amd64` is neither in `/opt/dcx/bin` nor in
`/opt/dcx/share/DCX/bin`, so the fallback `/opt/dcx/bin` should be returned; `getBinDir`
returns `/opt/dcx/share/DCX/bin` because that directory exists. -/
theorem getBinDir_installed_without_marker :
    getDCHome sampleEnv = "/opt/dcx" ∧
    installedFS "/opt/dcx/bin/dcx-linux-amd64" = none ∧
    installedFS "/opt/dcx/share/DCX/bin/dcx-linux-amd64" = none ∧
    getBinDir sampleEnv installedFS = "/opt/dcx/share/DCX/bin" := by
  decide

/-- C13, amended.  The function `getBinDir` returns `root/bin` when that directory exists and
holds the marker `dcx-{platform}`; otherwise `root/share/DCX/bin` when that path exists (no
marker is probed there); otherwise it falls back to `root/bin`. -/
theorem getBinDir_layout (env : Env) (fs : FS) :
    ((fs (Join [getDCHome env, "bin"])).isSome = true ∧
        (fs (Join [Join [getDCHome env, "bin"], "dcx-" ++ detectPlatform env])).isSome = true →
      getBinDir env fs = Join [getDCHome env, "bin"]) ∧
    (¬ ((fs (Join [getDCHome env, "bin"])).isSome = true ∧
        (fs (Join [Join [getDCHome env, "bin"], "dcx-" ++ detectPlatform env])).isSome = true) →
      (fs (Join [getDCHome env, "share", "DCX", "bin"])).isSome = true →
      getBinDir env fs = Join [getDCHome env, "share", "DCX", "bin"]) ∧
    (¬ ((fs (Join [getDCHome env, "bin"])).isSome = true ∧
        (fs (Join [Join [getDCHome env, "bin"], "dcx-" ++ detectPlatform env])).isSome = true) →
      (fs (Join [getDCHome env, "share", "DCX", "bin"])).isSome = false →
      getBinDir env fs = Join [getDCHome env, "bin"]) := by
  refine ⟨?_, ?_, ?_⟩
  · intro h
    simp [getBinDir, h]
  · intro h1 h2
    unfold getBinDir
    simp only [h1, ↓reduceIte, h2]
  · intro h1 h2
    unfold getBinDir
    simp only [h1, ↓reduceIte, h2, Bool.false_eq_true]

/-- C14 fails as stated.  With the override variable set to the relative path `work/dcx` all
four accessors return relative paths; with no override, no known executable and an
undeterminable home directory the root is the relative path `.local/share/dcx`. -/
theorem accessors_relative :
    relativeEnv.Getenv "DC_HOME" = "work/dcx" ∧
    getDCHome relativeEnv = "work/dcx" ∧
    getBinDir relativeEnv sampleFS = "work/dcx/bin" ∧
    getEtcDir relativeEnv sampleFS = "work/dcx/etc" ∧
    getCacheDir relativeEnv = "work/dcx/cache" ∧
    IsAbs (getDCHome relativeEnv) = false ∧
    getDCHome noHomeEnv = ".local/share/dcx" ∧
    IsAbs (getDCHome noHomeEnv) = false := by
  decide

/-- C18, evaluated where it fails.  With `DCX_HOME=/srv/dcx` in the environment and `DC_HOME`
not set, `getDCHome` does not return `/srv/dcx`: it reads `DC_HOME` only and falls back to
the default under the home directory. -/
theorem getDCHome_ignores_DCX_HOME :
    dcxHomeEnv.Getenv "DCX_HOME" = "/srv/dcx" ∧
    dcxHomeEnv.Getenv "DC_HOME" = "" ∧
    getDCHome dcxHomeEnv = "/home/dev/.local/share/dcx" ∧
    getDCHome dcxHomeEnv ≠ "/srv/dcx" := by
  decide

/-- Past the registry lookup, the installed check and the URL lookup, `toolsInstall` is the
download into the cache artifact followed by extraction and cleanup. -/
theorem toolsInstall_step (env : Env) (w : World) (config : ToolsConfig) (name : String)
    (tool : ToolConfig) (template : String) (force : Bool)
    (hload : loadToolsConfig env w.fs = .ok config)
    (htool : config.Tools.lookup name = some tool)
    (hurl : tool.URLs.lookup (detectPlatform env) = some template)
    (hgo : force = true ∨ ¬ IsExecutableFile w.fs (Join [getBinDir env w.fs, name])) :
    toolsInstall env name force w =
      match downloadFile env (installURL tool template) (archivePathOf env name tool template)
          (beforeDownload env w) with
      | (some err, w3) => (some (.wrapped "download failed" err), w3)
      | (none, w3) =>
        extractAndClean env (archiveExt tool template) (archivePathOf env name tool template)
          name (Join [getBinDir env w.fs, name]) w3 := by
  have hskip : (!force && isExecutable w.fs (Join [getBinDir env w.fs, name])) = false := by
    rcases hgo with h | h
    · simp [h]
    · rw [← isExecutable_iff, Bool.not_eq_true] at h
      simp [h]
  unfold toolsInstall
  simp only [hload, htool, hurl, hskip, Bool.false_eq_true, ↓reduceIte]
  rfl

/-! ## The installer: cache artifact and extractor -/

/-- The extension is `.zip` for a zip descriptor or a `.zip` URL, and `.tar.gz` otherwise. -/
theorem archiveExt_cases (tool : ToolConfig) (template : String) :
    (archiveExt tool template = ".zip" ↔
      (tool.Extract = "zip" ∨ HasSuffix (installURL tool template) ".zip" = true)) ∧
    (archiveExt tool template ≠ ".zip" → archiveExt tool template = ".tar.gz") := by
  unfold archiveExt
  by_cases h : (tool.Extract = "zip" ∨ HasSuffix (installURL tool template) ".zip" = true)
  · have hb : (decide (tool.Extract = "zip") || HasSuffix (installURL tool template) ".zip")
        = true := by simpa using h
    rw [if_pos hb]
    exact ⟨⟨fun _ => h, fun _ => rfl⟩, fun hne => absurd rfl hne⟩
  · have hb : ¬ (decide (tool.Extract = "zip") || HasSuffix (installURL tool template) ".zip")
        = true := by simpa using h
    rw [if_neg hb]
    exact ⟨⟨fun he => absurd he (by decide), fun h' => absurd h' h⟩, fun _ => rfl⟩

/-- After a response with status 200 the download opens its destination. -/
theorem downloadFile_trace_200 (env : Env) (url dest : String) (w : World) (resp : Response)
    (hget : env.httpGet url = some resp) (hstatus : resp.StatusCode = 200) :
    ∃ t, (downloadFile env url dest w).2.trace =
      w.trace ++ [Event.httpGet url, Event.create dest] ++ t := by
  unfold downloadFile
  simp only [World.log, hget, hstatus, ne_eq, not_true_eq_false, ↓reduceIte]
  cases ho : openTrunc env dest 0o666 0o600 w.fs with
  | mk r fs1 =>
    cases r with
    | some e => exact ⟨[], by simp⟩
    | none =>
      simp only []
      split <;> exact ⟨[.write dest resp.body], by simp⟩

theorem beforeDownload_trace (env : Env) (w : World) :
    (beforeDownload env w).trace =
      w.trace ++ [.mkdirAll (getCacheDir env), .mkdirAll (getBinDir env w.fs)] := by
  simp [beforeDownload, MkdirAll]

/-- The result of `extractAndClean` is the result of the chosen extractor, wrapped. -/
theorem extractAndClean_result (env : Env) (ext archive name dest : String) (w3 : World) :
    (ext = ".zip" → (extractAndClean env ext archive name dest w3).1 =
      (extractFromZip env archive name dest w3).1.map (Error.wrapped "extraction failed")) ∧
    (ext ≠ ".zip" → (extractAndClean env ext archive name dest w3).1 =
      (extractFromTarGz env archive name dest w3).1.map (Error.wrapped "extraction failed")) := by
  unfold extractAndClean
  constructor
  · intro h
    rw [if_pos h]
    cases hex : extractFromZip env archive name dest w3 with
    | mk rx w4 => cases rx <;> rfl
  · intro h
    rw [if_neg h]
    cases hex : extractFromTarGz env archive name dest w3 with
    | mk rx w4 => cases rx <;> rfl

/-- The state after `extractAndClean` is the state after the chosen extractor with the
cache artifact removed. -/
theorem extractAndClean_world (env : Env) (ext archive name dest : String) (w3 : World) :
    (extractAndClean env ext archive name dest w3).2 =
      (Remove archive (if ext = ".zip" then (extractFromZip env archive name dest w3).2
        else (extractFromTarGz env archive name dest w3).2)).2 := by
  unfold extractAndClean
  by_cases h : ext = ".zip"
  · rw [if_pos h, if_pos h]
    cases hex : extractFromZip env archive name dest w3 with
    | mk rx w4 => cases rx <;> rfl
  · rw [if_neg h, if_neg h]
    cases hex : extractFromTarGz env archive name dest w3 with
    | mk rx w4 => cases rx <;> rfl

theorem extractAndClean_trace_ext (env : Env) (ext archive name dest : String) (w3 : World) :
    ∃ t, (extractAndClean env ext archive name dest w3).2.trace = w3.trace ++ t := by
  rw [extractAndClean_world, remove_trace]
  by_cases h : ext = ".zip"
  · rw [if_pos h]
    obtain ⟨tx, htx⟩ := extractFromZip_trace_ext env archive name dest w3
    exact ⟨tx ++ [.remove archive], by rw [htx]; simp⟩
  · rw [if_neg h]
    obtain ⟨tx, htx⟩ := extractFromTarGz_trace_ext env archive name dest w3
    exact ⟨tx ++ [.remove archive], by rw [htx]; simp⟩

/-- C15. For an install that gets past the installed check and the URL lookup: the extension
is `.zip` exactly when the `extract` field is `zip` or the version-substituted URL ends with
`.zip`, and `.tar.gz` otherwise.  The download goes to `cacheDir/{name}-{version}{ext}`:
after a response with status 200 that path is opened for writing right after the request;
when the download fails install returns the download-failed error; when it succeeds the
response body is the content of the file at that path.  After a successful download the
result and the final state of the install are those of the zip extractor when the extension
is `.zip`, and those of the tar.gz extractor otherwise, each run on that cache artifact
with the tool name and the destination `binDir/name`, followed by the removal of the
artifact. -/
theorem toolsInstall_archive_choice (env : Env) (w : World) (config : ToolsConfig)
    (name : String) (tool : ToolConfig) (template : String) (force : Bool)
    (hload : loadToolsConfig env w.fs = .ok config)
    (htool : config.Tools.lookup name = some tool)
    (hurl : tool.URLs.lookup (detectPlatform env) = some template)
    (hgo : force = true ∨ ¬ IsExecutableFile w.fs (Join [getBinDir env w.fs, name])) :
    (archiveExt tool template = ".zip" ↔
      (tool.Extract = "zip" ∨ HasSuffix (installURL tool template) ".zip" = true)) ∧
    (archiveExt tool template ≠ ".zip" → archiveExt tool template = ".tar.gz") ∧
    (∀ resp, env.httpGet (installURL tool template) = some resp → resp.StatusCode = 200 →
      ∃ t, (toolsInstall env name force w).2.trace =
        w.trace ++ [.mkdirAll (getCacheDir env), .mkdirAll (getBinDir env w.fs),
          .httpGet (installURL tool template),
          .create (Join [getCacheDir env,
            name ++ "-" ++ tool.Version ++ archiveExt tool template])] ++ t) ∧
    (∀ err w3, downloadFile env (installURL tool template)
        (Join [getCacheDir env, name ++ "-" ++ tool.Version ++ archiveExt tool template])
        (beforeDownload env w) = (some err, w3) →
      toolsInstall env name force w = (some (.wrapped "download failed" err), w3)) ∧
    (∀ w3, downloadFile env (installURL tool template)
        (Join [getCacheDir env, name ++ "-" ++ tool.Version ++ archiveExt tool template])
        (beforeDownload env w) = (none, w3) →
      (∃ resp perm, env.httpGet (installURL tool template) = some resp ∧
        resp.StatusCode = 200 ∧
        w3.fs = FS.set (beforeDownload env w).fs
          (Join [getCacheDir env, name ++ "-" ++ tool.Version ++ archiveExt tool template])
          (some ⟨.regular, perm, resp.body⟩)) ∧
      (archiveExt tool template = ".zip" →
        toolsInstall env name force w =
          ((extractFromZip env
              (Join [getCacheDir env, name ++ "-" ++ tool.Version ++ archiveExt tool template])
              name (Join [getBinDir env w.fs, name]) w3).1.map
                (Error.wrapped "extraction failed"),
            (Remove
              (Join [getCacheDir env, name ++ "-" ++ tool.Version ++ archiveExt tool template])
              (extractFromZip env
                (Join [getCacheDir env,
                  name ++ "-" ++ tool.Version ++ archiveExt tool template])
                name (Join [getBinDir env w.fs, name]) w3).2).2)) ∧
      (archiveExt tool template ≠ ".zip" →
        toolsInstall env name force w =
          ((extractFromTarGz env
              (Join [getCacheDir env, name ++ "-" ++ tool.Version ++ archiveExt tool template])
              name (Join [getBinDir env w.fs, name]) w3).1.map
                (Error.wrapped "extraction failed"),
            (Remove
              (Join [getCacheDir env, name ++ "-" ++ tool.Version ++ archiveExt tool template])
              (extractFromTarGz env
                (Join [getCacheDir env,
                  name ++ "-" ++ tool.Version ++ archiveExt tool template])
                name (Join [getBinDir env w.fs, name]) w3).2).2))) := by
  have hstep := toolsInstall_step env w config name tool template force hload htool hurl hgo
  refine ⟨(archiveExt_cases tool template).1, (archiveExt_cases tool template).2, ?_, ?_, ?_⟩
  · intro resp hget hstatus
    obtain ⟨td, htd⟩ := downloadFile_trace_200 env (installURL tool template)
      (archivePathOf env name tool template) (beforeDownload env w) resp hget hstatus
    rw [hstep]
    cases hdl : downloadFile env (installURL tool template)
        (archivePathOf env name tool template) (beforeDownload env w) with
    | mk r w3 =>
      rw [hdl] at htd
      simp only at htd
      cases r with
      | some err =>
        exact ⟨td, by simp only []; rw [htd, beforeDownload_trace]; simp [archivePathOf]⟩
      | none =>
        simp only []
        obtain ⟨tx, htx⟩ := extractAndClean_trace_ext env (archiveExt tool template)
          (archivePathOf env name tool template) name (Join [getBinDir env w.fs, name]) w3
        exact ⟨td ++ tx, by rw [htx, htd, beforeDownload_trace]; simp [archivePathOf]⟩
  · intro err w3 hdl
    have hdl1 : downloadFile env (installURL tool template)
        (archivePathOf env name tool template) (beforeDownload env w) = (some err, w3) := hdl
    rw [hstep, hdl1]
  · intro w3 hdl
    have hdl1 : downloadFile env (installURL tool template)
        (archivePathOf env name tool template) (beforeDownload env w) = (none, w3) := hdl
    have hres := extractAndClean_result env (archiveExt tool template)
      (archivePathOf env name tool template) name (Join [getBinDir env w.fs, name]) w3
    have hworld := extractAndClean_world env (archiveExt tool template)
      (archivePathOf env name tool template) name (Join [getBinDir env w.fs, name]) w3
    refine ⟨?_, ?_, ?_⟩
    · obtain ⟨resp, perm, hget, hstatus, hfs⟩ := downloadFile_ok env _ _ _ w3 hdl1
      exact ⟨resp, perm, hget, hstatus, hfs⟩
    · intro hext
      rw [hstep, hdl1]
      refine Prod.ext (hres.1 hext) ?_
      rw [hworld, if_pos hext]
      rfl
    · intro hext
      rw [hstep, hdl1]
      refine Prod.ext (hres.2 hext) ?_
      rw [hworld, if_neg hext]
      rfl

theorem toolsInstall_archive_choice_witness :
    archiveExt yqTool "https://example.org/v\x7bversion\x7d/yq_linux_amd64.zip" = ".zip" ∧
    archiveExt gumTool "https://example.org/gum_\x7bversion\x7d_linux_amd64.tar.gz" = ".tar.gz" ∧
    (∃ t, (toolsInstall sampleEnv "yq" true sampleWorld).2.trace =
      [.mkdirAll "/opt/dcx/cache", .mkdirAll "/opt/dcx/bin",
        .httpGet "https://example.org/v4.44.1/yq_linux_amd64.zip",
        .create "/opt/dcx/cache/yq-4.44.1.zip"] ++ t) ∧
    (downloadFile sampleEnv "https://example.org/v4.44.1/yq_linux_amd64.zip"
      "/opt/dcx/cache/yq-4.44.1.zip" (beforeDownload sampleEnv sampleWorld)).2.fs
        "/opt/dcx/cache/yq-4.44.1.zip" = some ⟨.regular, 0o644, [6, 7]⟩ ∧
    (toolsInstall sampleEnv "yq" true sampleWorld).2.trace =
      [.mkdirAll "/opt/dcx/cache", .mkdirAll "/opt/dcx/bin",
        .httpGet "https://example.org/v4.44.1/yq_linux_amd64.zip",
        .create "/opt/dcx/cache/yq-4.44.1.zip", .write "/opt/dcx/cache/yq-4.44.1.zip" [6, 7],
        .openFile "/opt/dcx/bin/yq", .write "/opt/dcx/bin/yq" [10, 11],
        .remove "/opt/dcx/cache/yq-4.44.1.zip"] ∧
    (toolsInstall sampleEnv "yq" true sampleWorld).2.fs "/opt/dcx/bin/yq"
      = some ⟨.regular, 0o755, [10, 11]⟩ ∧
    (toolsInstall sampleEnv "gum" true sampleWorld).2.fs "/opt/dcx/bin/gum"
      = some ⟨.regular, 0o644, [4, 5]⟩ :=
  ⟨by decide, by decide,
    (toolsInstall_archive_choice sampleEnv sampleWorld sampleConfig "yq" yqTool
      "https://example.org/v\x7bversion\x7d/yq_linux_amd64.zip" true rfl rfl rfl
      (Or.inl rfl)).2.2.1
      { StatusCode := 200, Status := "200 OK", body := [6, 7], readErr := false } rfl rfl,
    by decide, by decide, by decide, by decide⟩

/-- Opening a file for writing touches that path only. -/
theorem openTrunc_touches (env : Env) (path : String) (perm need : Nat) (fs : FS) :
    Touches fs (openTrunc env path perm need fs).2 path := by
  unfold openTrunc Touches
  cases hp : fs path with
  | none =>
    simp only []
    split
    · exact Or.inr ⟨_, [], by simp, rfl⟩
    · exact Or.inl rfl
  | some old =>
    simp only []
    split
    · exact Or.inl rfl
    · split
      · exact Or.inl rfl
      · rename_i hreg _
        have hty : old.type = FileType.regular := by simpa using hreg
        refine Or.inr ⟨old.perm, [], by simp [hty], ?_⟩
        cases old
        simp_all

theorem writeBytes_touches (fs fs1 : FS) (path : String) (data : Bytes)
    (h : Touches fs fs1 path) : Touches fs (writeBytes path data fs1) path := by
  rcases h with h | ⟨perm, d, hprior, h⟩
  · subst h
    unfold writeBytes
    cases hp : fs1 path with
    | none => exact Or.inl rfl
    | some n =>
      simp only []
      split
      · rename_i hreg
        exact Or.inr ⟨n.perm, n.content ++ data, Or.inr ⟨n, hp, hreg⟩, by
          cases n; simp_all⟩
      · exact Or.inl rfl
  · subst h
    refine Or.inr ⟨perm, d ++ data, hprior, ?_⟩
    funext q
    unfold writeBytes
    simp only [set_same]
    by_cases hq : q = path
    · subst hq; simp [FS.set]
    · simp [FS.set, hq]

theorem writeMember_touches (env : Env) (dest : String) (data : Bytes) (re : Bool) (w : World) :
    Touches w.fs (writeMember env dest data re w).2.fs dest := by
  have ho := openTrunc_touches env dest 0o755 0o200 w.fs
  unfold writeMember
  simp only [World.log]
  cases hop : openTrunc env dest 0o755 0o200 w.fs with
  | mk r fs1 =>
    rw [hop] at ho
    cases r with
    | some e => exact ho
    | none =>
      simp only []
      split <;> exact writeBytes_touches _ _ _ _ ho

theorem extractFromTarGz_touches (env : Env) (archive name dest : String) (w : World) :
    Touches w.fs (extractFromTarGz env archive name dest w).2.fs dest := by
  cases hread : ReadFile w.fs archive with
  | error e => exact Or.inl (by simp [extractFromTarGz, hread])
  | ok data =>
    cases hdec : env.tarGzReader data with
    | none => exact Or.inl (by simp [extractFromTarGz, hread, hdec])
    | some stream =>
      rw [extractFromTarGz_eq env w archive name dest data stream hread hdec]
      cases stream.entries.find? (tarCandidate name) with
      | none => exact Or.inl rfl
      | some e => exact writeMember_touches env dest e.data e.readErr w

theorem extractFromZip_touches (env : Env) (archive name dest : String) (w : World) :
    Touches w.fs (extractFromZip env archive name dest w).2.fs dest := by
  cases hread : ReadFile w.fs archive with
  | error e => exact Or.inl (by simp [extractFromZip, hread])
  | ok data =>
    cases hdec : env.zipOpenReader data with
    | none => exact Or.inl (by simp [extractFromZip, hread, hdec])
    | some files =>
      rw [extractFromZip_eq env w archive name dest data files hread hdec]
      cases files.find? (zipCandidate name) with
      | none => exact Or.inl rfl
      | some f =>
        by_cases hopen : f.openErr = true
        · exact Or.inl (by simp [hopen])
        · simp only [hopen, Bool.false_eq_true, ↓reduceIte]
          exact writeMember_touches env dest f.data f.readErr w

/-- A step that touches one path leaves a regular file regular. -/
theorem touches_regular (fs fs1 : FS) (path a : String) (h : Touches fs fs1 path)
    (ha : ∃ n, fs a = some n ∧ n.type = FileType.regular) :
    ∃ n, fs1 a = some n ∧ n.type = FileType.regular := by
  rcases h with h | ⟨perm, d, -, h⟩
  · rw [h]; exact ha
  · rw [h]
    by_cases hq : a = path
    · exact ⟨_, by rw [hq, set_same], rfl⟩
    · rw [set_other _ _ _ _ hq]; exact ha

/-- A step that touches one path leaves the permission to make and remove entries. -/
theorem touches_canCreateIn (fs fs1 : FS) (path a : String) (h : Touches fs fs1 path)
    (ha : canCreateIn fs a = true) : canCreateIn fs1 a = true := by
  rcases h with h | ⟨perm, d, hprior, h⟩
  · rw [h]; exact ha
  · unfold canCreateIn at ha ⊢
    cases hd : fs (Dir a) with
    | none => simp [hd] at ha
    | some dnode =>
      simp only [hd, Bool.and_eq_true, decide_eq_true_eq] at ha
      have hne : Dir a ≠ path := by
        intro he
        rw [he] at hd
        rcases hprior with hnone | ⟨old, hold, hreg⟩
        · rw [hnone] at hd; cases hd
        · rw [hold] at hd
          cases hd
          rw [hreg] at ha
          exact absurd ha.1 (by decide)
      rw [h, set_other _ _ _ _ hne, hd]
      simp [ha]

/-- Removing a regular file from a directory that permits it leaves nothing at the path. -/
theorem remove_gone (path : String) (w : World)
    (hreg : ∃ n, w.fs path = some n ∧ n.type = FileType.regular)
    (hperm : canCreateIn w.fs path = true) : (Remove path w).2.fs path = none := by
  obtain ⟨n, hn, hty⟩ := hreg
  unfold Remove
  simp [hn, hty, hperm, World.log, FS.set]

theorem downloadFile_touches (env : Env) (url dest : String) (w : World) :
    Touches w.fs (downloadFile env url dest w).2.fs dest := by
  have ho := openTrunc_touches env dest 0o666 0o600 w.fs
  unfold downloadFile
  simp only [World.log]
  cases env.httpGet url with
  | none => exact Or.inl rfl
  | some resp =>
    simp only []
    split
    · exact Or.inl rfl
    · cases hop : openTrunc env dest 0o666 0o600 w.fs with
      | mk r fs1 =>
        rw [hop] at ho
        cases r with
        | some e => exact ho
        | none =>
          simp only []
          split <;> exact writeBytes_touches _ _ _ _ ho

/-- C16, amended.  For an install whose download step succeeded, provided the directory of
the cache artifact grants the owner write and search permission when the download starts,
nothing is left at `cacheDir/{name}-{version}{ext}` when `toolsInstall` returns, and
`toolsInstall` returns either success or the extraction-failed error. -/
theorem toolsInstall_removes_artifact (env : Env) (w : World) (config : ToolsConfig)
    (name : String) (tool : ToolConfig) (template : String) (force : Bool)
    (hload : loadToolsConfig env w.fs = .ok config)
    (htool : config.Tools.lookup name = some tool)
    (hurl : tool.URLs.lookup (detectPlatform env) = some template)
    (hgo : force = true ∨ ¬ IsExecutableFile w.fs (Join [getBinDir env w.fs, name]))
    (hdl : (downloadFile env (installURL tool template)
      (Join [getCacheDir env, name ++ "-" ++ tool.Version ++ archiveExt tool template])
      (beforeDownload env w)).1 = none)
    (hperm : canCreateIn (beforeDownload env w).fs
      (Join [getCacheDir env, name ++ "-" ++ tool.Version ++ archiveExt tool template]) = true) :
    (toolsInstall env name force w).2.fs
        (Join [getCacheDir env, name ++ "-" ++ tool.Version ++ archiveExt tool template])
      = none ∧
    ((toolsInstall env name force w).1 = none ∨
      ∃ err, (toolsInstall env name force w).1 = some (.wrapped "extraction failed" err)) := by
  have hstep := toolsInstall_step env w config name tool template force hload htool hurl hgo
  have hperm' : canCreateIn (beforeDownload env w).fs (archivePathOf env name tool template)
      = true := hperm
  have htouch := downloadFile_touches env (installURL tool template)
    (archivePathOf env name tool template) (beforeDownload env w)
  cases hd : downloadFile env (installURL tool template)
      (archivePathOf env name tool template) (beforeDownload env w) with
  | mk r w3 =>
    have hr : r = none := by
      have : (downloadFile env (installURL tool template)
        (archivePathOf env name tool template) (beforeDownload env w)).1 = none := hdl
      rw [hd] at this; exact this
    subst hr
    rw [hd] at htouch
    simp only at htouch
    obtain ⟨resp, p, -, -, hfs3⟩ := downloadFile_ok env _ _ _ w3 hd
    have hreg3 : ∃ n, w3.fs (archivePathOf env name tool template) = some n ∧
        n.type = FileType.regular := ⟨_, by rw [hfs3, set_same], rfl⟩
    have hperm3 := touches_canCreateIn _ _ _ _ htouch hperm'
    rw [hstep, hd]
    simp only []
    constructor
    · change (extractAndClean env (archiveExt tool template)
        (archivePathOf env name tool template) name (Join [getBinDir env w.fs, name]) w3).2.fs
          (archivePathOf env name tool template) = none
      rw [extractAndClean_world]
      apply remove_gone
      · by_cases hext : archiveExt tool template = ".zip"
        · rw [if_pos hext]
          exact touches_regular _ _ _ _ (extractFromZip_touches env _ name _ w3) hreg3
        · rw [if_neg hext]
          exact touches_regular _ _ _ _ (extractFromTarGz_touches env _ name _ w3) hreg3
      · by_cases hext : archiveExt tool template = ".zip"
        · rw [if_pos hext]
          exact touches_canCreateIn _ _ _ _ (extractFromZip_touches env _ name _ w3) hperm3
        · rw [if_neg hext]
          exact touches_canCreateIn _ _ _ _ (extractFromTarGz_touches env _ name _ w3) hperm3
    · have hres := extractAndClean_result env (archiveExt tool template)
        (archivePathOf env name tool template) name (Join [getBinDir env w.fs, name]) w3
      by_cases hext : archiveExt tool template = ".zip"
      · rw [hres.1 hext]
        cases (extractFromZip env (archivePathOf env name tool template) name
          (Join [getBinDir env w.fs, name]) w3).1 with
        | none => exact Or.inl rfl
        | some e => exact Or.inr ⟨e, rfl⟩
      · rw [hres.2 hext]
        cases (extractFromTarGz env (archivePathOf env name tool template) name
          (Join [getBinDir env w.fs, name]) w3).1 with
        | none => exact Or.inl rfl
        | some e => exact Or.inr ⟨e, rfl⟩

theorem toolsInstall_removes_artifact_witness :
    (toolsInstall sampleEnv "gum" false sampleWorld).1 = none ∧
    (toolsInstall sampleEnv "gum" false sampleWorld).2.fs "/opt/dcx/cache/gum-0.14.5.tar.gz"
      = none :=
  ⟨by decide,
    (toolsInstall_removes_artifact sampleEnv sampleWorld sampleConfig "gum" gumTool
      "https://example.org/gum_\x7bversion\x7d_linux_amd64.tar.gz" false rfl rfl rfl
      (Or.inr (by rw [← isExecutable_iff]; decide)) (by decide) (by decide)).1⟩

/-- C16 fails as stated.  The cache directory has mode `0555` and holds an artifact of an
earlier run.  The download succeeds (it truncates the existing file), extraction succeeds
and install returns success, but `os.Remove` is refused and the artifact is still there. -/
theorem toolsInstall_leaves_artifact_in_readonly_cache :
    staleCacheWorld.fs "/opt/dcx/cache" = some ⟨.dir, 0o555, []⟩ ∧
    staleCacheWorld.fs "/opt/dcx/cache/yq-4.44.1.zip" = some ⟨.regular, 0o644, [0]⟩ ∧
    (downloadFile sampleEnv "https://example.org/v4.44.1/yq_linux_amd64.zip"
      "/opt/dcx/cache/yq-4.44.1.zip" (beforeDownload sampleEnv staleCacheWorld)).1 = none ∧
    (toolsInstall sampleEnv "yq" true staleCacheWorld).1 = none ∧
    (toolsInstall sampleEnv "yq" true staleCacheWorld).2.fs "/opt/dcx/cache/yq-4.44.1.zip"
      = some ⟨.regular, 0o644, [6, 7]⟩ ∧
    (toolsInstall sampleEnv "yq" true staleCacheWorld).2.trace =
      [.mkdirAll "/opt/dcx/cache", .mkdirAll "/opt/dcx/bin",
       .httpGet "https://example.org/v4.44.1/yq_linux_amd64.zip",
       .create "/opt/dcx/cache/yq-4.44.1.zip", .write "/opt/dcx/cache/yq-4.44.1.zip" [6, 7],
       .openFile "/opt/dcx/bin/yq", .write "/opt/dcx/bin/yq" [10, 11],
       .remove "/opt/dcx/cache/yq-4.44.1.zip"] := by
  decide

/-! ## The installer: the expected binary name -/

/-- C17, evaluated where it fails.  The tool is registered under the key `ast-grep` and its
`binary` field is `sg`; the release zip holds the regular member `sg`, which matches the
`binary` field.  `toolsInstall "ast-grep"` hands the key to the extractor and fails with
`binary ast-grep not found in archive`; nothing is installed. -/
theorem toolsInstall_matches_key_not_binary :
    loadToolsConfig astGrepEnv sampleWorld.fs = .ok astGrepConfig ∧
    astGrepConfig.Tools.lookup "ast-grep" = some astGrepTool ∧
    astGrepTool.Binary = "sg" ∧
    astGrepEnv.zipOpenReader [6, 7] = some astGrepFiles ∧
    astGrepFiles.map (fun f => (f.Name, f.mode, matchesBinaryName (Base f.Name) astGrepTool.Binary))
      = [("sg", FileType.regular, true)] ∧
    (toolsInstall astGrepEnv "ast-grep" true sampleWorld).1 =
      some (.wrapped "extraction failed" (.errorf "binary ast-grep not found in archive")) ∧
    (toolsInstall astGrepEnv "ast-grep" true sampleWorld).2.fs "/opt/dcx/bin/ast-grep" = none ∧
    (toolsInstall astGrepEnv "ast-grep" true sampleWorld).2.fs "/opt/dcx/bin/sg"
      = sampleWorld.fs "/opt/dcx/bin/sg" := by
  refine ⟨rfl, ?_⟩
  decide

theorem lookup_map_binary (binary name : String) :
    ∀ tools : List (String × ToolConfig),
      (tools.map fun e => (e.1, { e.2 with Binary := binary })).lookup name =
        (tools.lookup name).map fun t => { t with Binary := binary }
  | [] => rfl
  | (k, t) :: rest => by
    simp only [List.map, List.lookup]
    cases name == k with
    | true => rfl
    | false => exact lookup_map_binary binary name rest

theorem loadToolsConfig_withBinary (env : Env) (binary : String) (fs : FS) :
    loadToolsConfig (env.withBinary binary) fs =
      match loadToolsConfig env fs with
      | .error err => .error err
      | .ok config => .ok (withBinary binary config) := by
  have hetc : getEtcDir (env.withBinary binary) fs = getEtcDir env fs := rfl
  unfold loadToolsConfig
  simp only [hetc]
  cases hread : ReadFile fs (Join [getEtcDir env fs, "tools.yaml"]) with
  | error e => rfl
  | ok data =>
    simp only [Env.withBinary]
    cases hdec : env.yamlUnmarshal data <;> rfl

theorem mkdirAllOn_withBinary (env : Env) (binary : String) (perm : Nat) :
    ∀ (l : List String) (fs : FS),
      mkdirAllOn (env.withBinary binary) perm l fs = mkdirAllOn env perm l fs
  | [], _ => rfl
  | p :: parents, fs => by
    unfold mkdirAllOn
    rw [mkdirAllOn_withBinary env binary perm parents fs]
    rfl

theorem mkdirAll_withBinary (env : Env) (binary : String) (path : String) (perm : Nat)
    (w : World) : MkdirAll (env.withBinary binary) path perm w = MkdirAll env path perm w := by
  unfold MkdirAll
  rw [mkdirAllOn_withBinary]

theorem writeMember_withBinary (env : Env) (binary : String) (dest : String) (data : Bytes)
    (re : Bool) (w : World) :
    writeMember (env.withBinary binary) dest data re w = writeMember env dest data re w := rfl

theorem downloadFile_withBinary (env : Env) (binary : String) (url dest : String) (w : World) :
    downloadFile (env.withBinary binary) url dest w = downloadFile env url dest w := rfl

theorem tarLoop_withBinary (env : Env) (binary : String) (name dest : String) (corrupt : Bool) :
    ∀ (entries : List TarEntry) (w : World),
      tarLoop (env.withBinary binary) name dest corrupt entries w =
        tarLoop env name dest corrupt entries w
  | [], _ => rfl
  | e :: rest, w => by
    unfold tarLoop
    rw [tarLoop_withBinary env binary name dest corrupt rest w, writeMember_withBinary]

theorem zipLoop_withBinary (env : Env) (binary : String) (name dest : String) :
    ∀ (files : List ZipFile) (w : World),
      zipLoop (env.withBinary binary) name dest files w = zipLoop env name dest files w
  | [], _ => rfl
  | f :: rest, w => by
    unfold zipLoop
    rw [zipLoop_withBinary env binary name dest rest w, writeMember_withBinary]

theorem extractFromTarGz_withBinary (env : Env) (binary : String) (archive name dest : String)
    (w : World) :
    extractFromTarGz (env.withBinary binary) archive name dest w =
      extractFromTarGz env archive name dest w := by
  unfold extractFromTarGz
  cases ReadFile w.fs archive with
  | error e => rfl
  | ok data =>
    have hdec : (env.withBinary binary).tarGzReader data = env.tarGzReader data := rfl
    simp only [hdec]
    cases env.tarGzReader data with
    | none => rfl
    | some stream => exact tarLoop_withBinary env binary name dest _ _ w

theorem extractFromZip_withBinary (env : Env) (binary : String) (archive name dest : String)
    (w : World) :
    extractFromZip (env.withBinary binary) archive name dest w =
      extractFromZip env archive name dest w := by
  unfold extractFromZip
  cases ReadFile w.fs archive with
  | error e => rfl
  | ok data =>
    have hdec : (env.withBinary binary).zipOpenReader data = env.zipOpenReader data := rfl
    simp only [hdec]
    cases env.zipOpenReader data with
    | none => rfl
    | some files => exact zipLoop_withBinary env binary name dest _ w

/-- The `binary` field has no influence on `toolsInstall`: replacing it in every registry entry
changes neither the result nor the final state; and a successful install matched a member
of the downloaded archive against the registry key. -/
theorem toolsInstall_ignores_binary (env : Env) (binary : String) :
    (∀ name force w,
      toolsInstall (env.withBinary binary) name force w = toolsInstall env name force w) ∧
    (∀ name force w config tool template,
      loadToolsConfig env w.fs = .ok config →
      config.Tools.lookup name = some tool →
      tool.URLs.lookup (detectPlatform env) = some template →
      (force = true ∨ ¬ IsExecutableFile w.fs (Join [getBinDir env w.fs, name])) →
      (toolsInstall env name force w).1 = none →
      ∃ resp member, env.httpGet (installURL tool template) = some resp ∧
        matchedMember env (archiveExt tool template) name resp.body = some member) := by
  constructor
  · intro name force w
    unfold toolsInstall
    rw [loadToolsConfig_withBinary]
    cases hload : loadToolsConfig env w.fs with
    | error e => rfl
    | ok config =>
      simp only [withBinary, lookup_map_binary]
      have hbin : getBinDir (env.withBinary binary) w.fs = getBinDir env w.fs := rfl
      have hcache : getCacheDir (env.withBinary binary) = getCacheDir env := rfl
      have hplat : detectPlatform (env.withBinary binary) = detectPlatform env := rfl
      cases htool : config.Tools.lookup name with
      | none => rfl
      | some tool =>
        simp only [Option.map, hbin, hcache, hplat, mkdirAll_withBinary,
          downloadFile_withBinary, extractFromTarGz_withBinary, extractFromZip_withBinary]
  · intro name force w config tool template hload htool hurl hgo hok
    rw [toolsInstall_step env w config name tool template force hload htool hurl hgo] at hok
    cases hd : downloadFile env (installURL tool template)
        (archivePathOf env name tool template) (beforeDownload env w) with
    | mk r w3 =>
      rw [hd] at hok
      cases r with
      | some err => simp at hok
      | none =>
        obtain ⟨resp, p, hget, -, hfs3⟩ := downloadFile_ok env _ _ _ w3 hd
        simp only [] at hok
        have hres := extractAndClean_result env (archiveExt tool template)
          (archivePathOf env name tool template) name (Join [getBinDir env w.fs, name]) w3
        by_cases hext : archiveExt tool template = ".zip"
        · rw [hres.1 hext] at hok
          cases hex : extractFromZip env (archivePathOf env name tool template) name
              (Join [getBinDir env w.fs, name]) w3 with
          | mk rx w4 =>
            rw [hex] at hok
            cases rx with
            | some e => simp at hok
            | none =>
              obtain ⟨data, files, f, q, hread, hdec, hfind, -⟩ :=
                extractFromZip_ok env _ _ _ w3 w4 hex
              rw [hfs3] at hread
              have hdata := readFile_set _ _ _ _ hread
              simp only at hdata
              subst hdata
              exact ⟨resp, f.data, hget, by simp [matchedMember, hext, hdec, hfind]⟩
        · rw [hres.2 hext] at hok
          cases hex : extractFromTarGz env (archivePathOf env name tool template) name
              (Join [getBinDir env w.fs, name]) w3 with
          | mk rx w4 =>
            rw [hex] at hok
            cases rx with
            | some e => simp at hok
            | none =>
              obtain ⟨data, stream, e, q, hread, hdec, hfind, -⟩ :=
                extractFromTarGz_ok env _ _ _ w3 w4 hex
              rw [hfs3] at hread
              have hdata := readFile_set _ _ _ _ hread
              simp only at hdata
              subst hdata
              exact ⟨resp, e.data, hget, by simp [matchedMember, hext, hdec, hfind]⟩

end Dcx
